import Mathlib

/-!
# seq2midi: event-to-MIDI translation and real-time dispatch

A shallow embedding of `src/apps/seq2midi.cpp`.

Conventions of the embedding.

* A C++ `double` (or `float`) is the rational number it stands for; NaN and
  the infinities are not modelled. The products `when * 1000` and `value * 127`
  are rounded to the nearest double, ties to even, as the machine does
  (`double_mul`). The reading `Pt_Time() * 0.001` and the bend argument
  `(value + 1) * 8192` are kept exact.
* A C++ `int` is a mathematical integer kept in the 32-bit range by `wrap_int`
  where the source narrows a wider value; `long` and `unsigned long` are 64 bits
  wide (the LP64 data model).
* A conversion from `double` to an integer type truncates toward zero. C++
  leaves the conversion undefined when the truncated value does not fit the
  target type; the embedding keeps the low bits there, and a theorem that speaks
  of such a conversion states the range in which it holds.
* `x & 15`, `x & 0xFF`, `x >> 7` and `x << 8` on two's-complement integers are
  written with `%`, `/` and `*` on `Int` (Euclidean remainder, floor division).
* The calls made to the timer, the console and the MIDI transport are recorded
  in order in a trace; the clock is the list of values that the successive calls
  of `Pt_Time` return, and a run that needs more readings than the list holds has
  no result.
-/

namespace Seq2midi

/-! ## Machine arithmetic -/

/-- The `int` that a wider integer becomes when it is narrowed to 32 bits. -/
def wrap_int (z : Int) : Int := (z + 2147483648) % 4294967296 - 2147483648

/-- The `long` (64 bits) holding the low bits of an integer. -/
def wrap_long (z : Int) : Int :=
  (z + 9223372036854775808) % 18446744073709551616 - 9223372036854775808

/-- Truncation of a `double` toward zero. -/
def trunc (x : ℚ) : Int := if 0 ≤ x then ⌊x⌋ else ⌈x⌉

/-- The cast `(int) x` of a `double`. -/
def int_of_double (x : ℚ) : Int := wrap_int (trunc x)

/-- The cast `(long) x` of a `double`. -/
def long_of_double (x : ℚ) : Int := wrap_long (trunc x)

/-- The cast `(unsigned long) x` of a `double`. -/
def ulong_of_double (x : ℚ) : Int := trunc x % 18446744073709551616

/-- Rounding to the nearest integer, halfway cases away from zero. -/
def round_half_away (x : ℚ) : Int := if 0 ≤ x then ⌊x + 1 / 2⌋ else -⌊-x + 1 / 2⌋

/-- The library function `std::lround`, which returns a `long`. -/
def lround (x : ℚ) : Int := wrap_long (round_half_away x)

/-- Rounding of a rational to the nearest integer, ties to the even one. -/
def round_half_even (y : ℚ) : Int :=
  if y - ⌊y⌋ < 1 / 2 then ⌊y⌋
  else if 1 / 2 < y - ⌊y⌋ then ⌊y⌋ + 1
  else if ⌊y⌋ % 2 = 0 then ⌊y⌋ else ⌊y⌋ + 1

/-- The number of binary digits of `n`, counted in at most `fuel` steps (`n`
steps always suffice). -/
def bit_length : Nat → Nat → Nat
  | 0, _ => 0
  | fuel + 1, n => if n = 0 then 0 else bit_length fuel (n / 2) + 1

/-- The binary exponent of a rational: the `e` with 2 ^ e ≤ |x| < 2 ^ (e + 1). The
difference of the bit lengths of numerator and denominator is `e` or `e + 1`. -/
def binary_exponent (x : ℚ) : Int :=
  if (2 : ℚ) ^ ((bit_length x.num.natAbs x.num.natAbs : Int) - (bit_length x.den x.den : Int))
      ≤ |x| then
    (bit_length x.num.natAbs x.num.natAbs : Int) - (bit_length x.den x.den : Int)
  else
    (bit_length x.num.natAbs x.num.natAbs : Int) - (bit_length x.den x.den : Int) - 1

/-- The spacing of the doubles around `x`: 2 ^ (e - 52) for 2 ^ e ≤ |x| < 2 ^ (e + 1),
and 2 ^ (-1074) in the subnormal range. -/
def double_ulp (x : ℚ) : ℚ := (2 : ℚ) ^ max (binary_exponent x - 52) (-1074)

/-- The double nearest to a rational, ties to the even significand (the IEEE 754
default rounding; overflow to infinity is not modelled). -/
def round_to_double (x : ℚ) : ℚ := round_half_even (x / double_ulp x) * double_ulp x

/-- The product `a * b` of two doubles, as the machine computes it. -/
def double_mul (a b : ℚ) : ℚ := round_to_double (a * b)

/-- The library function `std::clamp(v, lo, hi)`. -/
def clamp (v lo hi : Int) : Int := if v < lo then lo else if hi < v then hi else v

/-! ## The MIDI transport -/

/-- Modelled from the spec: `midicode.h` is not among the sources; the status
byte of a Polyphonic Key Pressure message. -/
def MIDI_POLY_TOUCH : Int := 0xA0

/-- Modelled from the spec: `midicode.h` is not among the sources; the status
byte of a Control Change message. -/
def MIDI_CTRL : Int := 0xB0

/-- Modelled from the spec: `midicode.h` is not among the sources; the status
byte of a Program Change message. -/
def MIDI_CH_PROGRAM : Int := 0xC0

/-- Modelled from the spec: `midicode.h` is not among the sources; the status
byte of a Channel Pressure message. -/
def MIDI_TOUCH : Int := 0xD0

/-- Modelled from the spec: `midicode.h` is not among the sources; the status
byte of a Pitch Bend message. -/
def MIDI_BEND : Int := 0xE0

/-- Modelled from the spec: `portmidi.h` is not among the sources; the packed
3-byte message `((data2 << 16) & 0xFF0000) | ((data1 << 8) & 0xFF00) | (status & 0xFF)`. -/
def Pm_Message (status data1 data2 : Int) : Int :=
  (data2 % 256) * 65536 + (data1 % 256) * 256 + status % 256

/-- Modelled from the spec: `portmidi.h` is not among the sources; the status
byte `msg & 0xFF` of a packed message. -/
def Pm_MessageStatus (msg : Int) : Int := msg % 256

/-- Modelled from the spec: `portmidi.h` is not among the sources; the first
data byte `(msg >> 8) & 0xFF` of a packed message. -/
def Pm_MessageData1 (msg : Int) : Int := (msg / 256) % 256

/-- Modelled from the spec: `portmidi.h` is not among the sources; the second
data byte `(msg >> 16) & 0xFF` of a packed message. -/
def Pm_MessageData2 (msg : Int) : Int := (msg / 65536) % 256

/-- The arguments of one call of `Pm_WriteShort`: a timestamp in milliseconds
and a packed message. -/
structure PmEvent where
  timestamp : Int
  message : Int
deriving DecidableEq, Repr

/-- One call to the timer, the console or the transport. -/
inductive Action where
  | pm_initialize
  | pm_open_output
  | pt_start
  | pt_sleep (ms : Nat)
  | print_dot
  | write_short (e : PmEvent)
  | pm_close
  | pm_terminate
deriving DecidableEq, Repr

/-- The state around the player: the values the coming calls of `Pt_Time` return,
the static `last_time` of `wait_until`, and the calls made so far. -/
structure World where
  clock : List Int
  last_time : ℚ
  trace : List Action
deriving DecidableEq

/-- The messages handed to the transport, in order. -/
def sent : List Action → List PmEvent
  | [] => []
  | Action.write_short e :: rest => e :: sent rest
  | _ :: rest => sent rest

/-- Record the calls of `Pm_WriteShort` for a list of messages. -/
def write_all (w : World) (es : List PmEvent) : World :=
  { w with trace := w.trace ++ es.map Action.write_short }

/-! ## The sequence library -/

/-- Modelled from the spec: `allegro.h` is not among the sources; an event is
the record of what its accessors return (kind, time, end time, channel,
identifier, loudness, attribute name, update type, real and integer value).
The attribute name is the string `get_attribute()` points to, which ends in the
type character of the attribute. -/
structure Alg_event where
  is_note : Bool
  is_update : Bool
  time : ℚ
  get_end_time : ℚ
  chan : Int
  get_identifier : Int
  get_loud : ℚ
  get_attribute : String
  get_update_type : Char
  get_real_value : ℚ
  get_integer_value : Int

/-- The symbol `pressure_attr` that `seq2midi` looks up before it plays. -/
def pressure_attr : String := "pressurer"

/-- The symbol `bend_attr` that `seq2midi` looks up before it plays. -/
def bend_attr : String := "bendr"

/-- The symbol `program_attr` that `seq2midi` looks up before it plays. -/
def program_attr : String := "programi"

/-! ## The C library -/

/-- The test `isspace` of the C locale. -/
def isspace (c : Char) : Bool := c.toNat = 32 || (9 ≤ c.toNat && c.toNat ≤ 13)

/-- The test `isdigit`. -/
def isdigit (c : Char) : Bool := 48 ≤ c.toNat && c.toNat ≤ 57

/-- The digits at the head of a string, read in base ten after `acc`. -/
def atoi_digits : List Char → Int → Int
  | [], acc => acc
  | c :: rest, acc =>
    if isdigit c then atoi_digits rest (acc * 10 + ((c.toNat : Int) - 48)) else acc

/-- The library function `atoi`: white space, an optional sign, then digits;
what follows the digits is ignored and no digit at all gives 0. -/
def atoi (s : List Char) : Int :=
  match s.dropWhile isspace with
  | [] => 0
  | c :: rest =>
    if c = '-' then -(atoi_digits rest 0)
    else if c = '+' then atoi_digits rest 0
    else atoi_digits (c :: rest) 0

/-- The test `strncmp("control", s, 7) == 0`. -/
def strncmp_control (s : List Char) : Bool := s.take 7 = "control".toList

/-! ## seq2midi.cpp -/

/-- The function `time_elapsed`: one reading of `Pt_Time`, in seconds. -/
def time_elapsed (w : World) : Option (ℚ × World) :=
  match w.clock with
  | [] => none
  | ms :: rest => some ((ms : ℚ) * (1 / 1000), { w with clock := rest })

/-- The loop of `wait_until`, entered with the current reading `now`. -/
def wait_until_loop (time : ℚ) : List Int → ℚ → ℚ → List Action → Option World
  | [], now, last_time, trace =>
    if now < time then none else some ⟨[], last_time, trace⟩
  | ms :: rest, now, last_time, trace =>
    if now < time then
      let now1 : ℚ := (ms : ℚ) * (1 / 1000)
      if long_of_double now1 > long_of_double last_time then
        wait_until_loop time rest now1 now1
          (trace ++ [Action.pt_sleep 1, Action.print_dot])
      else
        wait_until_loop time rest now1 last_time (trace ++ [Action.pt_sleep 1])
    else some ⟨ms :: rest, last_time, trace⟩

/-- The function `wait_until`. -/
def wait_until (time : ℚ) (w : World) : Option World :=
  match time_elapsed w with
  | none => none
  | some (now, w1) => wait_until_loop time w1.clock now (min now w1.last_time) w1.trace

/-- The function `midi_note_on`: the message it writes. -/
def midi_note_on (when : ℚ) (chan key loud : Int) : PmEvent :=
  let timestamp := ulong_of_double (double_mul when 1000)
  let chan := chan % 16
  let key := clamp key 0 127
  let loud := clamp loud 0 127
  let data := Pm_Message (0x90 + chan) key loud
  ⟨timestamp, data⟩

/-- The function `midi_channel_message_2`: the message it writes. -/
def midi_channel_message_2 (when : ℚ) (status chan data : Int) : PmEvent :=
  let timestamp := ulong_of_double (double_mul when 1000)
  let chan := chan % 16
  let data := clamp data 0 127
  let msg := Pm_Message (status + chan) data 0
  ⟨timestamp, msg⟩

/-- The function `midi_channel_message`: the message it writes. The source
assigns `data2 = std::clamp(data, 0, 127)`, so the argument `data2` is unused. -/
def midi_channel_message (when : ℚ) (status chan data _data2 : Int) : PmEvent :=
  let timestamp := ulong_of_double (double_mul when 1000)
  let chan := chan % 16
  let data := clamp data 0 127
  let data2 := clamp data 0 127
  let msg := Pm_Message (status + chan) data data2
  ⟨timestamp, msg⟩

/-- The 14-bit bend value of `send_midi_update`:
`int bend = std::lround((v + 1) * 8192); bend = std::clamp(bend, 0, 8191)`. -/
def bend_value (v : ℚ) : Int := clamp (wrap_int (lround ((v + 1) * 8192))) 0 8191

/-- The function `send_midi_update`: the messages it writes, in order. -/
def send_midi_update (u : Alg_event) : List PmEvent :=
  if u.get_attribute = pressure_attr then
    if u.get_identifier < 0 then
      [midi_channel_message_2 u.time MIDI_TOUCH u.chan
        (int_of_double (double_mul u.get_real_value 127))]
    else
      [midi_channel_message u.time MIDI_POLY_TOUCH u.chan u.get_identifier
        (int_of_double (double_mul u.get_real_value 127))]
  else if u.get_attribute = bend_attr then
    let bend := bend_value u.get_real_value
    [midi_channel_message u.time MIDI_BEND u.chan (bend / 128) (bend % 128)]
  else if u.get_attribute = program_attr then
    [midi_channel_message_2 u.time MIDI_CH_PROGRAM u.chan u.get_integer_value]
  else if strncmp_control u.get_attribute.toList && u.get_update_type = 'r' then
    let control := atoi (u.get_attribute.toList.drop 7)
    let val := wrap_int (lround (double_mul u.get_real_value 127))
    [midi_channel_message u.time MIDI_CTRL u.chan control val]
  else []

/-- The messages that the body of the loop of `seq2midi` writes for one item of
the iterator. -/
def item_messages (e : Alg_event) (note_on : Bool) : List PmEvent :=
  let next_time := if note_on then e.time else e.get_end_time
  if e.is_note && note_on then
    [midi_note_on next_time e.chan e.get_identifier (int_of_double e.get_loud)]
  else if e.is_note then
    [midi_note_on next_time e.chan e.get_identifier 0]
  else if e.is_update then
    send_midi_update e
  else []

/-- The loop of `seq2midi` over the items that the iterator yields. -/
def seq2midi_loop : List (Alg_event × Bool) → World → Option World
  | [], w => some w
  | (e, note_on) :: rest, w =>
    let next_time := if note_on then e.time else e.get_end_time
    match wait_until next_time w with
    | none => none
    | some w1 => seq2midi_loop rest (write_all w1 (item_messages e note_on))

/-- The function `seq2midi`, on the items that the iterator yields. -/
def seq2midi (items : List (Alg_event × Bool)) (w : World) : Option World :=
  seq2midi_loop items { w with trace := w.trace ++ [Action.pt_start] }

/-- Modelled from the spec: `portmidi.h` is not among the sources; the error
code with which `Pm_OpenOutput` reports success. -/
def pmNoError : Int := 0

/-- The function `seq_play`, on the error code that `Pm_OpenOutput` returns and
the items that the iterator yields. `Pm_GetDefaultOutputDeviceID` only reads the
device number and leaves no call in the trace. -/
def seq_play (open_result : Int) (items : List (Alg_event × Bool)) (w : World) :
    Option World :=
  let w0 : World :=
    { w with trace := w.trace ++ [Action.pm_initialize, Action.pm_open_output] }
  if open_result = pmNoError then
    match seq2midi items w0 with
    | none => none
    | some w1 =>
      match time_elapsed w1 with
      | none => none
      | some (now, w2) =>
        match wait_until (now + 1) w2 with
        | none => none
        | some w3 =>
          some { w3 with trace := w3.trace ++ [Action.pm_close, Action.pm_terminate] }
  else some { w0 with trace := w0.trace ++ [Action.pm_terminate] }

/-! ## Examples of events -/

/-- A bend update on channel 0 at time 0 with real value 0. -/
def bend_zero : Alg_event :=
  ⟨false, true, 0, 0, 0, -1, 0, "bendr", 'r', 0, 0⟩

/-- A real update of attribute `control3` on channel 0 at time 0 with value 1/2. -/
def control3_half : Alg_event :=
  ⟨false, true, 0, 0, 0, -1, 0, "control3r", 'r', 1 / 2, 0⟩

/-- A pressure update for key 60 on channel 0 at time 0 with value 1/2. -/
def pressure_key60_half : Alg_event :=
  ⟨false, true, 0, 0, 0, 60, 0, "pressurer", 'r', 1 / 2, 0⟩

/-- A program update on channel 3 at time 2 with integer value 5. -/
def program_five : Alg_event :=
  ⟨false, true, 2, 2, 3, -1, 0, "programi", 'i', 0, 5⟩

/-- An update of the unknown attribute `foo`, of type real. -/
def foo_update : Alg_event :=
  ⟨false, true, 0, 0, 0, -1, 0, "foor", 'r', 1 / 2, 0⟩

/-- An update of attribute `control3` whose type is integer. -/
def control3_integer : Alg_event :=
  ⟨false, true, 0, 0, 0, -1, 0, "control3i", 'i', 0, 7⟩

/-- A note of key 60 and loudness 100.7 on channel 17, from second 1 to second 2. -/
def note_key60 : Alg_event :=
  ⟨true, false, 1, 2, 17, 60, 1007 / 10, "", 'n', 0, 0⟩

/-- A pressure update without key (identifier -1) on channel 2 at time 0 with
value 1/2. -/
def pressure_channel_half : Alg_event :=
  ⟨false, true, 0, 0, 2, -1, 0, "pressurer", 'r', 1 / 2, 0⟩

/-- A real update whose attribute is `control` alone, on channel 0 at time 0 with
value 1/2. -/
def control_bare : Alg_event :=
  ⟨false, true, 0, 0, 0, -1, 0, "controlr", 'r', 1 / 2, 0⟩

/-- A real update whose attribute is `controller`. -/
def controller_update : Alg_event :=
  ⟨false, true, 0, 0, 0, -1, 0, "controllerr", 'r', 1 / 2, 0⟩

/-- A real update whose attribute is `controlx`. -/
def controlx_update : Alg_event :=
  ⟨false, true, 0, 0, 0, -1, 0, "controlxr", 'r', 1 / 2, 0⟩

/-- A note of key 60 and loudness 100 on channel 0, from second 1 + 1/1024 to
second 2 + 1/1024. -/
def note_off_grid : Alg_event :=
  ⟨true, false, 1025 / 1024, 2049 / 1024, 0, 60, 100, "", 'n', 0, 0⟩

/-- A note of key 60 on channel 0 whose loudness is 3000000000, from second 1 to
second 2. -/
def note_loud_3e9 : Alg_event :=
  ⟨true, false, 1, 2, 0, 60, 3000000000, "", 'n', 0, 0⟩

/-- A pressure update without key on channel 0 at time 0 whose value is 16909321. -/
def pressure_huge : Alg_event :=
  ⟨false, true, 0, 0, 0, -1, 0, "pressurer", 'r', 16909321, 0⟩

/-- A pressure update without key on channel 0 at time 0 whose value is the double
nearest to 1/127, which lies below 1/127. -/
def pressure_step : Alg_event :=
  ⟨false, true, 0, 0, 0, -1, 0, "pressurer", 'r',
    567382630219905 / 72057594037927936, 0⟩

theorem clamp_bounds (v lo hi : Int) (h : lo ≤ hi) :
    lo ≤ clamp v lo hi ∧ clamp v lo hi ≤ hi := by
  unfold clamp
  split_ifs <;> omega

theorem clamp_of_mem (v lo hi : Int) (h1 : lo ≤ v) (h2 : v ≤ hi) : clamp v lo hi = v := by
  unfold clamp
  split_ifs <;> omega

theorem status_of_message (s d1 d2 : Int) : Pm_MessageStatus (Pm_Message s d1 d2) = s % 256 := by
  unfold Pm_MessageStatus Pm_Message
  omega

theorem data1_of_message (s d1 d2 : Int) :
    Pm_MessageData1 (Pm_Message s d1 d2) = d1 % 256 := by
  unfold Pm_MessageData1 Pm_Message
  omega

theorem data2_of_message (s d1 d2 : Int) :
    Pm_MessageData2 (Pm_Message s d1 d2) = d2 % 256 := by
  unfold Pm_MessageData2 Pm_Message
  omega

theorem data1_of_clamped (s d d2 : Int) :
    Pm_MessageData1 (Pm_Message s (clamp d 0 127) d2) = clamp d 0 127 := by
  have h := clamp_bounds d 0 127 (by norm_num)
  rw [data1_of_message]
  omega

theorem data2_of_clamped (s d1 d : Int) :
    Pm_MessageData2 (Pm_Message s d1 (clamp d 0 127)) = clamp d 0 127 := by
  have h := clamp_bounds d 0 127 (by norm_num)
  rw [data2_of_message]
  omega

/-! ## The claims -/

/-- C1, at the bend update of value 0.0: `send_midi_update` emits one Pitch Bend
message whose first data byte is the MSB 63 of the bend 8191 and whose second
data byte is 63 as well, not the LSB 127. -/
theorem bend_zero_emits_msb_twice :
    bend_value 0 = 8191 ∧
    send_midi_update bend_zero = [⟨0, Pm_Message 0xE0 63 63⟩] ∧
    (send_midi_update bend_zero).map (fun m => Pm_MessageData1 m.message) = [63] ∧
    (send_midi_update bend_zero).map (fun m => Pm_MessageData2 m.message) = [63] := by
  decide!

/-- C2, at the update `control3` of value 0.5: `send_midi_update` emits one Control
Change message for controller 3 whose second data byte is 3 as well, not the
scaled value 64. -/
theorem control3_half_emits_index_twice :
    wrap_int (lround ((1 / 2 : ℚ) * 127)) = 64 ∧
    send_midi_update control3_half = [⟨0, Pm_Message 0xB0 3 3⟩] ∧
    (send_midi_update control3_half).map (fun m => Pm_MessageData1 m.message) = [3] ∧
    (send_midi_update control3_half).map (fun m => Pm_MessageData2 m.message) = [3] := by
  decide!

/-- C3: every data byte of the message written by `midi_note_on`,
`midi_channel_message_2` and `midi_channel_message` lies in [0,127], whatever
the integer arguments are. -/
theorem data_bytes_in_range (t : ℚ) (status chan key loud data data2 : Int) :
    (0 ≤ Pm_MessageData1 (midi_note_on t chan key loud).message ∧
      Pm_MessageData1 (midi_note_on t chan key loud).message ≤ 127 ∧
      0 ≤ Pm_MessageData2 (midi_note_on t chan key loud).message ∧
      Pm_MessageData2 (midi_note_on t chan key loud).message ≤ 127) ∧
    (0 ≤ Pm_MessageData1 (midi_channel_message_2 t status chan data).message ∧
      Pm_MessageData1 (midi_channel_message_2 t status chan data).message ≤ 127 ∧
      0 ≤ Pm_MessageData2 (midi_channel_message_2 t status chan data).message ∧
      Pm_MessageData2 (midi_channel_message_2 t status chan data).message ≤ 127) ∧
    (0 ≤ Pm_MessageData1 (midi_channel_message t status chan data data2).message ∧
      Pm_MessageData1 (midi_channel_message t status chan data data2).message ≤ 127 ∧
      0 ≤ Pm_MessageData2 (midi_channel_message t status chan data data2).message ∧
      Pm_MessageData2 (midi_channel_message t status chan data data2).message ≤ 127) := by
  have hk := clamp_bounds key 0 127 (by norm_num)
  have hl := clamp_bounds loud 0 127 (by norm_num)
  have hd := clamp_bounds data 0 127 (by norm_num)
  have hdd := clamp_bounds (clamp data 0 127) 0 127 (by norm_num)
  simp only [midi_note_on, midi_channel_message_2, midi_channel_message,
    data1_of_clamped, data2_of_clamped]
  have h0 : Pm_MessageData2 (Pm_Message (status + chan % 16) (clamp data 0 127) 0) = 0 := by
    rw [data2_of_message]; rfl
  rw [h0]
  omega

/-- C4: the low nibble of the emitted status byte is the channel modulo 16 (the
non-negative remainder) and its high nibble is that of the status: 9 for
`midi_note_on`, that of the status argument for `midi_channel_message_2` and
`midi_channel_message` when the low nibble of that argument is 0. -/
theorem status_nibbles (t : ℚ) (status chan key loud data data2 : Int)
    (h : status % 16 = 0) :
    (Pm_MessageStatus (midi_note_on t chan key loud).message % 16 = chan % 16 ∧
      Pm_MessageStatus (midi_note_on t chan key loud).message / 16 = 9) ∧
    (Pm_MessageStatus (midi_channel_message_2 t status chan data).message % 16 = chan % 16 ∧
      Pm_MessageStatus (midi_channel_message_2 t status chan data).message / 16
        = status % 256 / 16) ∧
    (Pm_MessageStatus (midi_channel_message t status chan data data2).message % 16
        = chan % 16 ∧
      Pm_MessageStatus (midi_channel_message t status chan data data2).message / 16
        = status % 256 / 16) := by
  simp only [midi_note_on, midi_channel_message_2, midi_channel_message, status_of_message]
  omega

/-- C4 at the Pitch Bend status and the channels -1 and 17: the channel nibbles
are 15 and 1. -/
theorem status_nibbles_witness :
    Pm_MessageStatus (midi_channel_message 0 0xE0 (-1) 0 0).message % 16 = 15 ∧
    Pm_MessageStatus (midi_channel_message_2 0 0xE0 17 0).message % 16 = 1 ∧
    Pm_MessageStatus (midi_channel_message 0 0xE0 (-1) 0 0).message / 16 = 14 :=
  have h := status_nibbles 0 0xE0 (-1) 0 0 0 0 (by decide)
  have g := status_nibbles 0 0xE0 17 0 0 0 0 (by decide)
  ⟨h.2.2.1.trans (by decide), g.2.1.1.trans (by decide), h.2.2.2.trans (by decide)⟩

/-- C6, at the pressure update for key 60 of value 0.5: `send_midi_update` emits
one Polyphonic Key Pressure message whose first data byte is the key 60 and
whose second data byte is 60 as well, not the scaled pressure 63. -/
theorem pressure_key60_emits_key_twice :
    int_of_double ((1 / 2 : ℚ) * 127) = 63 ∧
    send_midi_update pressure_key60_half = [⟨0, Pm_Message 0xA0 60 60⟩] ∧
    (send_midi_update pressure_key60_half).map (fun m => Pm_MessageData1 m.message) = [60] ∧
    (send_midi_update pressure_key60_half).map (fun m => Pm_MessageData2 m.message) = [60] := by
  decide!

/-- C7: an update whose attribute is none of the three looked-up symbols and
does not begin with `control`, and an update whose attribute begins with
`control` but whose type is not real, make `send_midi_update` write nothing. -/
theorem unrecognised_update_ignored (u : Alg_event)
    (h : (u.get_attribute ≠ pressure_attr ∧ u.get_attribute ≠ bend_attr ∧
          u.get_attribute ≠ program_attr ∧ strncmp_control u.get_attribute.toList = false) ∨
        (strncmp_control u.get_attribute.toList = true ∧ u.get_update_type ≠ 'r')) :
    send_midi_update u = [] := by
  rcases h with ⟨h1, h2, h3, h4⟩ | ⟨h4, h5⟩
  · unfold send_midi_update
    rw [if_neg h1, if_neg h2, if_neg h3, h4]
    rfl
  · have h1 : u.get_attribute ≠ pressure_attr := by
      intro hc; rw [hc] at h4; revert h4; decide
    have h2 : u.get_attribute ≠ bend_attr := by
      intro hc; rw [hc] at h4; revert h4; decide
    have h3 : u.get_attribute ≠ program_attr := by
      intro hc; rw [hc] at h4; revert h4; decide
    unfold send_midi_update
    rw [if_neg h1, if_neg h2, if_neg h3, h4]
    simp [h5]

/-- C7 at the attribute `foo` and at an integer update of `control3`. -/
theorem unrecognised_update_ignored_witness :
    send_midi_update foo_update = [] ∧ send_midi_update control3_integer = [] :=
  ⟨unrecognised_update_ignored foo_update (Or.inl (by decide)),
   unrecognised_update_ignored control3_integer (Or.inr (by decide))⟩

/-- C9: a program update makes `send_midi_update` write exactly one message,
of status 0xC0 + (chan mod 16), whose first data byte is the integer value
itself when it lies in [0,127] and the nearer bound otherwise, and whose second
data byte is 0. -/
theorem program_change (u : Alg_event) (h : u.get_attribute = program_attr) :
    ∃ m, send_midi_update u = [m] ∧
      Pm_MessageStatus m.message = 0xC0 + u.chan % 16 ∧
      Pm_MessageData1 m.message = clamp u.get_integer_value 0 127 ∧
      (0 ≤ u.get_integer_value → u.get_integer_value ≤ 127 →
        Pm_MessageData1 m.message = u.get_integer_value) ∧
      (u.get_integer_value < 0 → Pm_MessageData1 m.message = 0) ∧
      (127 < u.get_integer_value → Pm_MessageData1 m.message = 127) ∧
      Pm_MessageData2 m.message = 0 := by
  have h1 : u.get_attribute ≠ pressure_attr := by rw [h]; decide
  have h2 : u.get_attribute ≠ bend_attr := by rw [h]; decide
  refine ⟨midi_channel_message_2 u.time MIDI_CH_PROGRAM u.chan u.get_integer_value, ?_, ?_⟩
  · unfold send_midi_update
    rw [if_neg h1, if_neg h2, if_pos h]
  · have hd : Pm_MessageData1
        (midi_channel_message_2 u.time MIDI_CH_PROGRAM u.chan u.get_integer_value).message
        = clamp u.get_integer_value 0 127 := data1_of_clamped _ _ _
    refine ⟨?_, hd, ?_, ?_, ?_, ?_⟩
    · simp only [midi_channel_message_2, status_of_message, MIDI_CH_PROGRAM]
      omega
    · intro a b; rw [hd]; exact clamp_of_mem _ _ _ a b
    · intro a; rw [hd]; unfold clamp; rw [if_pos a]
    · intro a; rw [hd]; unfold clamp; split_ifs <;> omega
    · simp only [midi_channel_message_2, data2_of_message]
      rfl

/-- C9 at the program update of value 5 on channel 3: one message of status
0xC3 with data bytes 5 and 0. -/
theorem program_change_witness :
    ∃ m, send_midi_update program_five = [m] ∧ Pm_MessageStatus m.message = 0xC3 ∧
      Pm_MessageData1 m.message = 5 ∧ Pm_MessageData2 m.message = 0 :=
  match program_change program_five rfl with
  | ⟨m, h1, h2, _, h4, _, _, h7⟩ =>
    ⟨m, h1, h2.trans (by decide), h4 (by decide) (by decide), h7⟩

/-! ## The bend value -/

theorem wrap_int_of_mem (z : Int) (h1 : -2147483648 ≤ z) (h2 : z < 2147483648) :
    wrap_int z = z := by
  unfold wrap_int
  omega

theorem wrap_long_of_mem (z : Int) (h1 : -9223372036854775808 ≤ z)
    (h2 : z < 9223372036854775808) : wrap_long z = z := by
  unfold wrap_long
  omega

theorem round_half_away_nonpos (x : ℚ) (h1 : x ≤ 0) (h2 : -2147483648 - 1 / 2 < x) :
    -2147483648 ≤ round_half_away x ∧ round_half_away x ≤ 0 := by
  unfold round_half_away
  split_ifs with h
  · have hx : x = 0 := le_antisymm h1 h
    subst hx
    norm_num
  · have a : (0 : Int) ≤ ⌊-x + 1 / 2⌋ := Int.floor_nonneg.mpr (by linarith)
    have b : ⌊-x + 1 / 2⌋ < 2147483648 + 1 := by
      rw [Int.floor_lt]
      push_cast
      linarith
    omega

theorem round_half_away_large (x : ℚ) (h1 : 16383 ≤ x) (h2 : x < 2147483648 - 1 / 2) :
    16383 ≤ round_half_away x ∧ round_half_away x < 2147483648 := by
  unfold round_half_away
  have h : (0 : ℚ) ≤ x := by linarith
  rw [if_pos h]
  constructor
  · rw [Int.le_floor]
    push_cast
    linarith
  · rw [Int.floor_lt]
    push_cast
    linarith

/-- C8, amended: the bend value lies in [0,8191] for every real value, so that
its MSB is at most 63; it is 8191 at 0.0; it is 0 for every v ≤ -1 and 8191 for
every v ≥ 0.9999 as long as the rounded product (v+1)*8192 fits a 32-bit
`int`. -/
theorem bend_value_range (v : ℚ) :
    (0 ≤ bend_value v ∧ bend_value v ≤ 8191 ∧ bend_value v / 128 ≤ 63) ∧
    bend_value 0 = 8191 ∧ bend_value (-1) = 0 ∧
    (v ≤ -1 → -2147483648 - 1 / 2 < (v + 1) * 8192 → bend_value v = 0) ∧
    (9999 / 10000 ≤ v → (v + 1) * 8192 < 2147483648 - 1 / 2 → bend_value v = 8191) := by
  have hb := clamp_bounds (wrap_int (lround ((v + 1) * 8192))) 0 8191 (by norm_num)
  refine ⟨⟨hb.1, hb.2, ?_⟩, by decide!, by decide!, ?_, ?_⟩
  · unfold bend_value
    omega
  · intro h1 h2
    have hr := round_half_away_nonpos ((v + 1) * 8192) (by linarith) h2
    unfold bend_value lround
    rw [wrap_long_of_mem _ (by omega) (by omega), wrap_int_of_mem _ hr.1 (by omega)]
    unfold clamp
    split_ifs <;> omega
  · intro h1 h2
    have hr := round_half_away_large ((v + 1) * 8192) (by linarith) h2
    unfold bend_value lround
    rw [wrap_long_of_mem _ (by omega) (by omega), wrap_int_of_mem _ (by omega) hr.2]
    unfold clamp
    split_ifs <;> omega

/-- C8, amended, at the values -3/2 and 1: the bend values are 0 and 8191. -/
theorem bend_value_range_witness : bend_value (-3 / 2) = 0 ∧ bend_value 1 = 8191 :=
  ⟨(bend_value_range (-3 / 2)).2.2.2.1 (by norm_num) (by norm_num),
   (bend_value_range 1).2.2.2.2 (by norm_num) (by norm_num)⟩

/-- C8 as stated fails at the values 262143 (at least 0.9999) and -262146 (at
most -1): the rounded products 2^31 and -2^31 - 8192 do not fit an `int`, and
the bend values are 0 and 8191 instead of 8191 and 0. -/
theorem bend_value_wraps :
    (9999 / 10000 : ℚ) ≤ 262143 ∧ round_half_away ((262143 + 1) * 8192) = 2147483648 ∧
    bend_value 262143 = 0 ∧ bend_value 262143 ≠ 8191 ∧
    (-262146 : ℚ) ≤ -1 ∧ bend_value (-262146) = 8191 ∧ bend_value (-262146) ≠ 0 := by
  decide!

/-! ## Waiting -/

theorem sent_append (a b : List Action) : sent (a ++ b) = sent a ++ sent b := by
  induction a with
  | nil => rfl
  | cons x rest ih => cases x <;> simp [sent, ih]

theorem sent_write_short (es : List PmEvent) : sent (es.map Action.write_short) = es := by
  induction es with
  | nil => rfl
  | cons x rest ih => simp [sent, ih]

theorem wait_until_loop_of_reached (time : ℚ) (clock : List Int) (now last_time : ℚ)
    (trace : List Action) (h : time ≤ now) :
    wait_until_loop time clock now last_time trace = some ⟨clock, last_time, trace⟩ := by
  cases clock <;> simp [wait_until_loop, not_lt.mpr h]

theorem wait_until_loop_sent (time : ℚ) (clock : List Int) :
    ∀ (now last_time : ℚ) (trace : List Action) (w : World),
      wait_until_loop time clock now last_time trace = some w → sent w.trace = sent trace := by
  induction clock with
  | nil =>
    intro now last_time trace w h
    simp only [wait_until_loop] at h
    split_ifs at h
    cases h
    rfl
  | cons ms rest ih =>
    intro now last_time trace w h
    simp only [wait_until_loop] at h
    split_ifs at h
    · rw [ih _ _ _ _ h, sent_append]; simp [sent]
    · rw [ih _ _ _ _ h, sent_append]; simp [sent]
    · cases h; rfl

theorem wait_until_sent (time : ℚ) (w w1 : World) (h : wait_until time w = some w1) :
    sent w1.trace = sent w.trace := by
  unfold wait_until time_elapsed at h
  cases hc : w.clock with
  | nil => simp [hc] at h
  | cons ms rest =>
    simp only [hc] at h
    exact wait_until_loop_sent _ _ _ _ _ _ h

theorem wait_until_loop_last_reading (time : ℚ) (clock : List Int) :
    ∀ (now last_time : ℚ) (trace : List Action) (w : World),
      wait_until_loop time clock now last_time trace = some w →
      (time ≤ now ∧ w.clock = clock) ∨
      ∃ (consumed : List Int) (ms : Int), clock = consumed ++ [ms] ++ w.clock ∧ time ≤ (ms : ℚ) * (1 / 1000) := by
  induction clock with
  | nil =>
    intro now last_time trace w h
    simp only [wait_until_loop] at h
    split_ifs at h with hlt
    cases h
    exact Or.inl ⟨not_lt.mp hlt, rfl⟩
  | cons ms rest ih =>
    intro now last_time trace w h
    simp only [wait_until_loop] at h
    have step : ∀ lt tr, wait_until_loop time rest ((ms : ℚ) * (1 / 1000)) lt tr = some w →
        ∃ (consumed : List Int) (ms1 : Int), ms :: rest = consumed ++ [ms1] ++ w.clock ∧
          time ≤ (ms1 : ℚ) * (1 / 1000) := by
      intro lt tr hs
      rcases ih _ _ _ _ hs with ⟨h1, h2⟩ | ⟨consumed, ms1, h1, h2⟩
      · exact ⟨[], ms, by simp [h2], h1⟩
      · exact ⟨ms :: consumed, ms1, by simp [h1], h2⟩
    split_ifs at h with hlt
    · exact Or.inr (step _ _ h)
    · exact Or.inr (step _ _ h)
    · cases h
      exact Or.inl ⟨not_lt.mp hlt, rfl⟩

theorem wait_until_loop_returns (time : ℚ) (later : List Int) (clock : List Int) :
    ∀ (now last_time : ℚ) (trace : List Action),
      (time ≤ now ∨ ∃ ms ∈ clock, time ≤ (ms : ℚ) * (1 / 1000)) →
      ∃ w left, wait_until_loop time (clock ++ later) now last_time trace = some w ∧
        w.clock = left ++ later := by
  induction clock with
  | nil =>
    intro now last_time trace h
    have hn : time ≤ now := by
      rcases h with h | ⟨ms, hm, _⟩
      · exact h
      · simp at hm
    exact ⟨_, [], wait_until_loop_of_reached _ _ _ _ _ hn, rfl⟩
  | cons ms rest ih =>
    intro now last_time trace h
    by_cases hn : time ≤ now
    · exact ⟨_, ms :: rest, wait_until_loop_of_reached _ _ _ _ _ hn, rfl⟩
    · have hlt : now < time := not_le.mp hn
      have hnext : time ≤ (ms : ℚ) * (1 / 1000) ∨
          ∃ ms1 ∈ rest, time ≤ (ms1 : ℚ) * (1 / 1000) := by
        rcases h with h | ⟨ms1, hm, h1⟩
        · exact absurd h hn
        · rcases List.mem_cons.mp hm with heq | hin
          · exact Or.inl (heq ▸ h1)
          · exact Or.inr ⟨ms1, hin, h1⟩
      simp only [List.cons_append, wait_until_loop, if_pos hlt]
      split_ifs
      · exact ih _ _ _ hnext
      · exact ih _ _ _ hnext

theorem wait_until_returns (time : ℚ) (clock later : List Int) (last_time : ℚ)
    (trace : List Action) (h : ∃ ms ∈ clock, time ≤ (ms : ℚ) * (1 / 1000)) :
    ∃ w left, wait_until time ⟨clock ++ later, last_time, trace⟩ = some w ∧
      w.clock = left ++ later := by
  cases clock with
  | nil =>
    rcases h with ⟨ms, hm, _⟩
    simp at hm
  | cons ms rest =>
    have hnext : time ≤ (ms : ℚ) * (1 / 1000) ∨
        ∃ ms1 ∈ rest, time ≤ (ms1 : ℚ) * (1 / 1000) := by
      rcases h with ⟨ms1, hm, h1⟩
      rcases List.mem_cons.mp hm with heq | hin
      · exact Or.inl (heq ▸ h1)
      · exact Or.inr ⟨ms1, hin, h1⟩
    simp only [wait_until, time_elapsed, List.cons_append]
    exact wait_until_loop_returns _ _ _ _ _ _ hnext

/-- C10: whenever `wait_until` returns, the last reading of the clock that it
took is at least the target; when the first reading is already at least the
target it returns at once, with no sleep and no progress indicator; and it
returns as soon as the clock holds a reading that reaches the target. -/
theorem wait_until_never_early (time : ℚ) :
    (∀ w w1 : World, wait_until time w = some w1 →
      ∃ (consumed : List Int) (ms : Int), w.clock = consumed ++ [ms] ++ w1.clock ∧
        time ≤ (ms : ℚ) * (1 / 1000)) ∧
    (∀ (ms : Int) (rest : List Int) (last_time : ℚ) (trace : List Action),
      time ≤ (ms : ℚ) * (1 / 1000) →
      wait_until time ⟨ms :: rest, last_time, trace⟩
        = some ⟨rest, min ((ms : ℚ) * (1 / 1000)) last_time, trace⟩) ∧
    (∀ w : World, (∃ ms ∈ w.clock, time ≤ (ms : ℚ) * (1 / 1000)) →
      ∃ w1, wait_until time w = some w1) := by
  refine ⟨?_, ?_, ?_⟩
  · intro w w1 h
    unfold wait_until time_elapsed at h
    cases hc : w.clock with
    | nil => simp [hc] at h
    | cons ms rest =>
      simp only [hc] at h
      rcases wait_until_loop_last_reading _ _ _ _ _ _ h with ⟨h1, h2⟩ | ⟨consumed, ms1, h1, h2⟩
      · exact ⟨[], ms, by simp [h2], h1⟩
      · exact ⟨ms :: consumed, ms1, by simp [h1], h2⟩
  · intro ms rest last_time trace h
    simp only [wait_until, time_elapsed]
    exact wait_until_loop_of_reached _ _ _ _ _ h
  · intro w h
    obtain ⟨w1, _, h1, _⟩ := wait_until_returns time w.clock [] w.last_time w.trace h
    refine ⟨w1, ?_⟩
    rw [← h1]
    simp

/-- C10 on concrete clocks: target 0 on a clock that starts at 0 returns at once
and leaves the trace empty; target 1/2 is reached by the third reading after two
sleeps; target 3/2 is reached after a progress indicator at the first whole
second; a clock that never reaches the target gives no return. -/
theorem wait_until_never_early_witness :
    wait_until 0 ⟨[0, 5], 0, []⟩
      = some ⟨[5], min (((0 : Int) : ℚ) * (1 / 1000)) 0, []⟩ ∧
    wait_until (1 / 2) ⟨[0, 200, 500, 900], 0, []⟩
      = some ⟨[900], 0, [Action.pt_sleep 1, Action.pt_sleep 1]⟩ ∧
    wait_until (3 / 2) ⟨[0, 1000, 1500], 0, []⟩
      = some ⟨[], 1, [Action.pt_sleep 1, Action.print_dot, Action.pt_sleep 1]⟩ ∧
    wait_until 1 ⟨[0, 500], 0, []⟩ = none :=
  ⟨(wait_until_never_early 0).2.1 0 [5] 0 [] (by norm_num), by decide!, by decide!, by decide!⟩

/-! ## The loop of seq2midi -/

theorem seq2midi_loop_sent (items : List (Alg_event × Bool)) :
    ∀ w w1 : World, seq2midi_loop items w = some w1 →
      sent w1.trace = sent w.trace ++ items.flatMap (fun p => item_messages p.1 p.2) := by
  induction items with
  | nil =>
    intro w w1 h
    simp only [seq2midi_loop] at h
    cases h
    simp
  | cons p rest ih =>
    intro w w1 h
    obtain ⟨e, note_on⟩ := p
    simp only [seq2midi_loop] at h
    cases hw : wait_until (if note_on = true then e.time else e.get_end_time) w with
    | none => simp [hw] at h
    | some w2 =>
      simp only [hw] at h
      rw [ih _ _ h]
      simp [write_all, sent_append, sent_write_short, wait_until_sent _ _ _ hw]

theorem seq2midi_sent (items : List (Alg_event × Bool)) (w w1 : World)
    (h : seq2midi items w = some w1) :
    sent w1.trace = sent w.trace ++ items.flatMap (fun p => item_messages p.1 p.2) := by
  unfold seq2midi at h
  rw [seq2midi_loop_sent _ _ _ h, sent_append]
  simp [sent]

theorem int_of_double_of_mem (x : ℚ) (h1 : -2147483648 ≤ trunc x) (h2 : trunc x < 2147483648) :
    int_of_double x = trunc x :=
  wrap_int_of_mem _ h1 h2

/-! ## Channel messages and updates, continued -/

/-- C16: the message written by `midi_channel_message` has both data bytes equal
to the first data argument clamped to [0,127], and does not depend on the
argument `data2`. -/
theorem channel_message_ignores_data2 (t : ℚ) (status chan data data2 other : Int) :
    Pm_MessageData1 (midi_channel_message t status chan data data2).message
      = clamp data 0 127 ∧
    Pm_MessageData2 (midi_channel_message t status chan data data2).message
      = clamp data 0 127 ∧
    Pm_MessageData2 (midi_channel_message t status chan data data2).message
      = Pm_MessageData1 (midi_channel_message t status chan data data2).message ∧
    midi_channel_message t status chan data data2
      = midi_channel_message t status chan data other := by
  have hd := clamp_bounds data 0 127 (by norm_num)
  have hi : clamp (clamp data 0 127) 0 127 = clamp data 0 127 :=
    clamp_of_mem _ _ _ hd.1 hd.2
  have h1 : Pm_MessageData1 (midi_channel_message t status chan data data2).message
      = clamp data 0 127 := data1_of_clamped _ _ _
  have h2 : Pm_MessageData2 (midi_channel_message t status chan data data2).message
      = clamp data 0 127 := by
    simp only [midi_channel_message]
    rw [data2_of_clamped, hi]
  exact ⟨h1, h2, h2.trans h1.symm, rfl⟩

theorem trunc_of_nonneg (x : ℚ) (h : 0 ≤ x) : trunc x = ⌊x⌋ := by
  unfold trunc
  rw [if_pos h]

theorem trunc_nonpos (x : ℚ) (h : x ≤ 0) : trunc x ≤ 0 := by
  unfold trunc
  split_ifs with h0
  · have hx : x = 0 := le_antisymm h h0
    subst hx
    simp
  · exact Int.ceil_le.mpr (by simpa using h)

theorem atoi_digits_of_not_digit (s : List Char)
    (h : s = [] ∨ ∃ c rest, s = c :: rest ∧ isdigit c = false) (acc : Int) :
    atoi_digits s acc = acc := by
  rcases h with h | ⟨c, rest, h, hc⟩
  · subst h; rfl
  · subst h; simp [atoi_digits, hc]

theorem atoi_of_no_index (s : List Char)
    (h : s = [] ∨ ∃ c rest, s = c :: rest ∧ isdigit c = false ∧ isspace c = false ∧
      c ≠ '-' ∧ c ≠ '+') : atoi s = 0 := by
  rcases h with h | ⟨c, rest, h, hd, hs, hm, hp⟩
  · subst h; rfl
  · subst h
    simp [atoi, List.dropWhile, hs, hm, hp, atoi_digits, hd]

/-- C15, amended: every real update whose attribute begins with `control` makes
`send_midi_update` write exactly one Control Change message, of status 0xB0 +
(chan mod 16), whose controller index is what `atoi` reads after the prefix,
clamped to [0,127]; when nothing follows the prefix, or a character that is no
digit, white space or sign, that index is 0. -/
theorem control_without_index (u : Alg_event)
    (hp : strncmp_control u.get_attribute.toList = true) (ht : u.get_update_type = 'r') :
    ∃ m, send_midi_update u = [m] ∧
      Pm_MessageStatus m.message = 0xB0 + u.chan % 16 ∧
      Pm_MessageData1 m.message = clamp (atoi (u.get_attribute.toList.drop 7)) 0 127 ∧
      ((u.get_attribute.toList.drop 7 = [] ∨
        ∃ c rest, u.get_attribute.toList.drop 7 = c :: rest ∧ isdigit c = false ∧
          isspace c = false ∧ c ≠ '-' ∧ c ≠ '+') →
        Pm_MessageData1 m.message = 0) := by
  have h1 : u.get_attribute ≠ pressure_attr := by
    intro hc; rw [hc] at hp; revert hp; decide
  have h2 : u.get_attribute ≠ bend_attr := by
    intro hc; rw [hc] at hp; revert hp; decide
  have h3 : u.get_attribute ≠ program_attr := by
    intro hc; rw [hc] at hp; revert hp; decide
  have hd : Pm_MessageData1 (midi_channel_message u.time MIDI_CTRL u.chan
      (atoi (u.get_attribute.toList.drop 7))
      (wrap_int (lround (double_mul u.get_real_value 127)))).message
      = clamp (atoi (u.get_attribute.toList.drop 7)) 0 127 := data1_of_clamped _ _ _
  refine ⟨midi_channel_message u.time MIDI_CTRL u.chan
    (atoi (u.get_attribute.toList.drop 7)) (wrap_int (lround (double_mul u.get_real_value 127))),
    ?_, ?_, hd, ?_⟩
  · unfold send_midi_update
    rw [if_neg h1, if_neg h2, if_neg h3, hp]
    simp [ht]
  · simp only [midi_channel_message, status_of_message, MIDI_CTRL]
    omega
  · intro hn
    rw [hd, atoi_of_no_index _ hn]
    rfl

/-- C15, amended, at the attribute `control` alone: one Control Change message
of status 0xB0 for controller 0. -/
theorem control_without_index_witness :
    ∃ m, send_midi_update control_bare = [m] ∧ Pm_MessageStatus m.message = 0xB0 ∧
      Pm_MessageData1 m.message = 0 :=
  match control_without_index control_bare (by decide) (by decide) with
  | ⟨m, a, b, _, d⟩ =>
    ⟨m, a, b.trans (by decide), d (Or.inr ⟨'r', [], by decide, by decide, by decide,
      by decide, by decide⟩)⟩

/-- C15 as stated fails at the real updates of attribute `control` alone,
`controller` and `controlx`: each makes `send_midi_update` write one Control
Change message, for controller 0. -/
theorem control_without_index_emits :
    send_midi_update control_bare = [⟨0, Pm_Message 0xB0 0 0⟩] ∧
    send_midi_update controller_update = [⟨0, Pm_Message 0xB0 0 0⟩] ∧
    send_midi_update controlx_update = [⟨0, Pm_Message 0xB0 0 0⟩] ∧
    send_midi_update control_bare ≠ [] ∧ send_midi_update controller_update ≠ [] ∧
    send_midi_update controlx_update ≠ [] := by
  decide!

/-! ## Timestamps -/

theorem ulong_of_double_of_mem (x : ℚ) (h1 : 0 ≤ trunc x)
    (h2 : trunc x < 18446744073709551616) : ulong_of_double x = trunc x := by
  unfold ulong_of_double
  exact Int.emod_eq_of_lt h1 h2

theorem ulong_of_double_of_nonneg (x : ℚ) (h1 : 0 ≤ x) (h2 : x < 18446744073709551616) :
    ulong_of_double x = ⌊x⌋ := by
  have ht := trunc_of_nonneg x h1
  rw [ulong_of_double_of_mem x (by rw [ht]; exact Int.floor_nonneg.mpr h1)
    (by rw [ht, Int.floor_lt]; push_cast; exact h2), ht]

/-- C12 as stated fails on the note from second 1 + 1/1024 to second
2 + 1/1024 (start time at least 0, end time after it): the products with 1000
are 1000.98 and 2000.98 (the double products are exact), which round to 1001 and
2001, and the two messages are stamped 1000 and 2000. -/
theorem note_timestamps_not_rounded :
    (0 : ℚ) ≤ note_off_grid.time ∧ note_off_grid.time < note_off_grid.get_end_time ∧
    (seq2midi [(note_off_grid, true), (note_off_grid, false)] ⟨[1001, 2001], 0, []⟩).map
      (fun w1 => (sent w1.trace).map PmEvent.timestamp) = some [1000, 2000] ∧
    double_mul note_off_grid.time 1000 = note_off_grid.time * 1000 ∧
    double_mul note_off_grid.get_end_time 1000 = note_off_grid.get_end_time * 1000 ∧
    round_half_away (note_off_grid.time * 1000) = 1001 ∧
    round_half_away (note_off_grid.get_end_time * 1000) = 2001 ∧
    round (note_off_grid.time * 1000) = 1001 ∧
    round (note_off_grid.get_end_time * 1000) = 2001 := by
  refine ⟨by decide!, by decide!, by decide!, by decide!, by decide!, by decide!, by decide!,
    ?_, ?_⟩
  · rw [round_eq, Int.floor_eq_iff]
    norm_num [note_off_grid]
  · rw [round_eq, Int.floor_eq_iff]
    norm_num [note_off_grid]

/-! ## The trace of a run -/

theorem wait_until_loop_trace (time : ℚ) (clock : List Int) :
    ∀ (now last_time : ℚ) (trace : List Action) (w : World),
      wait_until_loop time clock now last_time trace = some w →
      ∃ waited, w.trace = trace ++ waited ∧
        ∀ a ∈ waited, a = Action.pt_sleep 1 ∨ a = Action.print_dot := by
  induction clock with
  | nil =>
    intro now last_time trace w h
    simp only [wait_until_loop] at h
    split_ifs at h
    cases h
    exact ⟨[], by simp, by simp⟩
  | cons ms rest ih =>
    intro now last_time trace w h
    simp only [wait_until_loop] at h
    split_ifs at h
    · obtain ⟨waited, h1, h2⟩ := ih _ _ _ _ h
      refine ⟨[Action.pt_sleep 1, Action.print_dot] ++ waited, by simp [h1], ?_⟩
      intro a ha
      simp only [List.cons_append, List.nil_append, List.mem_cons] at ha
      rcases ha with ha | ha | ha
      · exact Or.inl ha
      · exact Or.inr ha
      · exact h2 a ha
    · obtain ⟨waited, h1, h2⟩ := ih _ _ _ _ h
      refine ⟨[Action.pt_sleep 1] ++ waited, by simp [h1], ?_⟩
      intro a ha
      simp only [List.cons_append, List.nil_append, List.mem_cons] at ha
      rcases ha with ha | ha
      · exact Or.inl ha
      · exact h2 a ha
    · cases h
      exact ⟨[], by simp, by simp⟩

theorem wait_until_trace (time : ℚ) (w w1 : World) (h : wait_until time w = some w1) :
    ∃ waited, w1.trace = w.trace ++ waited ∧
      ∀ a ∈ waited, a = Action.pt_sleep 1 ∨ a = Action.print_dot := by
  unfold wait_until time_elapsed at h
  cases hc : w.clock with
  | nil => simp [hc] at h
  | cons ms rest =>
    simp only [hc] at h
    exact wait_until_loop_trace _ _ _ _ _ _ h

theorem wait_until_last_reading (time : ℚ) (w w1 : World) (h : wait_until time w = some w1) :
    ∃ (consumed : List Int) (ms : Int), w.clock = consumed ++ [ms] ++ w1.clock ∧
      time ≤ (ms : ℚ) * (1 / 1000) := by
  unfold wait_until time_elapsed at h
  cases hc : w.clock with
  | nil => simp [hc] at h
  | cons ms rest =>
    simp only [hc] at h
    rcases wait_until_loop_last_reading _ _ _ _ _ _ h with ⟨h1, h2⟩ | ⟨consumed, ms1, h1, h2⟩
    · exact ⟨[], ms, by simp [h2], h1⟩
    · exact ⟨ms :: consumed, ms1, by simp [h1], h2⟩

theorem seq2midi_loop_trace (items : List (Alg_event × Bool)) :
    ∀ w w1 : World, seq2midi_loop items w = some w1 →
      ∃ played, w1.trace = w.trace ++ played ∧
        ∀ a ∈ played, a = Action.pt_sleep 1 ∨ a = Action.print_dot ∨
          ∃ e, a = Action.write_short e := by
  induction items with
  | nil =>
    intro w w1 h
    simp only [seq2midi_loop] at h
    cases h
    exact ⟨[], by simp, by simp⟩
  | cons p rest ih =>
    intro w w1 h
    obtain ⟨e, note_on⟩ := p
    simp only [seq2midi_loop] at h
    cases hw : wait_until (if note_on = true then e.time else e.get_end_time) w with
    | none => simp [hw] at h
    | some w2 =>
      simp only [hw] at h
      obtain ⟨waited, a1, a2⟩ := wait_until_trace _ _ _ hw
      obtain ⟨played, b1, b2⟩ := ih _ _ h
      refine ⟨waited ++ (item_messages e note_on).map Action.write_short ++ played, ?_, ?_⟩
      · rw [b1]
        simp [write_all, a1]
      · intro a ha
        simp only [List.mem_append, List.mem_map] at ha
        rcases ha with (ha | ⟨m, _, hm⟩) | ha
        · rcases a2 a ha with h1 | h1
          · exact Or.inl h1
          · exact Or.inr (Or.inl h1)
        · exact Or.inr (Or.inr ⟨m, hm.symm⟩)
        · exact b2 a ha

theorem seq2midi_loop_append (pre post : List (Alg_event × Bool)) :
    ∀ w : World, seq2midi_loop (pre ++ post) w
      = (seq2midi_loop pre w).bind (seq2midi_loop post) := by
  induction pre with
  | nil => intro w; simp [seq2midi_loop]
  | cons p rest ih =>
    intro w
    obtain ⟨e, note_on⟩ := p
    simp only [List.cons_append, seq2midi_loop]
    cases wait_until (if note_on = true then e.time else e.get_end_time) w with
    | none => simp
    | some w2 => simp [ih]

theorem seq2midi_loop_returns (items : List (Alg_event × Bool)) (later : List Int) :
    ∀ (fast slow : List Int) (last_time : ℚ) (trace : List Action),
      List.Forall₂ (fun (p : Alg_event × Bool) (ms : Int) => (if p.2 = true then p.1.time else p.1.get_end_time)
        ≤ (ms : ℚ) * (1 / 1000)) items fast →
      ∃ w1 left, seq2midi_loop items ⟨slow ++ fast ++ later, last_time, trace⟩ = some w1 ∧
        w1.clock = left ++ later := by
  induction items with
  | nil =>
    intro fast slow last_time trace h
    cases h
    exact ⟨_, slow, rfl, by simp⟩
  | cons p rest ih =>
    intro fast slow last_time trace h
    obtain ⟨e, note_on⟩ := p
    cases h with
    | cons hhead htail =>
      rename_i ms fast1
      obtain ⟨wa, left, ha, hl⟩ := wait_until_returns
        (if note_on = true then e.time else e.get_end_time) (slow ++ [ms]) (fast1 ++ later)
        last_time trace ⟨ms, by simp, hhead⟩
      have hc : slow ++ ms :: fast1 ++ later = slow ++ [ms] ++ (fast1 ++ later) := by simp
      simp only [seq2midi_loop, hc, ha]
      obtain ⟨w1, left1, h1, h2⟩ := ih fast1 left wa.last_time
        (wa.trace ++ (item_messages e note_on).map Action.write_short) htail
      refine ⟨w1, left1, ?_, h2⟩
      rw [← h1]
      simp [write_all, hl]

theorem send_midi_update_length (u : Alg_event) :
    (send_midi_update u).length ≤ 1 ∧
    ((send_midi_update u).length = 1 ↔
      (u.get_attribute = pressure_attr ∨ u.get_attribute = bend_attr ∨
        u.get_attribute = program_attr ∨
        (strncmp_control u.get_attribute.toList = true ∧ u.get_update_type = 'r'))) := by
  unfold send_midi_update
  split_ifs with h1 h2 h3 h4 h5 <;> simp_all

theorem item_messages_length (e : Alg_event) (note_on : Bool) :
    (item_messages e note_on).length ≤ 1 := by
  have hu := (send_midi_update_length e).1
  unfold item_messages
  cases e.is_note <;> cases note_on <;> cases e.is_update <;> simp [hu]

/-- C17: `seq2midi` writes at most one message for each item that the iterator
yields, exactly one for a note, and for an update exactly one when its attribute
is one that `send_midi_update` recognises and none otherwise; the messages of a
run are those of its items in the order of the iterator; the messages of an item
are appended to the trace as it stands when `wait_until` has returned for the
effective time of the item (start time when flagged note-start, end time
otherwise), which a reading of the clock has then reached; and the run returns
on every clock that offers, item after item, a reading that reaches the
effective time. -/
theorem one_message_per_item :
    (∀ (e : Alg_event) (note_on : Bool), (item_messages e note_on).length ≤ 1) ∧
    (∀ (e : Alg_event) (note_on : Bool), e.is_note = true →
      (item_messages e note_on).length = 1) ∧
    (∀ (e : Alg_event) (note_on : Bool), e.is_note = false → e.is_update = true →
      item_messages e note_on = send_midi_update e ∧
      ((item_messages e note_on).length = 1 ↔
        (e.get_attribute = pressure_attr ∨ e.get_attribute = bend_attr ∨
          e.get_attribute = program_attr ∨
          (strncmp_control e.get_attribute.toList = true ∧ e.get_update_type = 'r')))) ∧
    (∀ (items : List (Alg_event × Bool)) (w w1 : World), seq2midi items w = some w1 →
      sent w1.trace = sent w.trace ++ items.flatMap (fun p => item_messages p.1 p.2)) ∧
    (∀ (pre post : List (Alg_event × Bool)) (e : Alg_event) (note_on : Bool) (w w1 : World),
      seq2midi (pre ++ (e, note_on) :: post) w = some w1 →
      ∃ (wa wb : World) (consumed : List Int) (ms : Int) (later : List Action),
        seq2midi pre w = some wa ∧
        wait_until (if note_on = true then e.time else e.get_end_time) wa = some wb ∧
        wa.clock = consumed ++ [ms] ++ wb.clock ∧
        (if note_on = true then e.time else e.get_end_time) ≤ (ms : ℚ) * (1 / 1000) ∧
        w1.trace = wb.trace ++ (item_messages e note_on).map Action.write_short ++ later) ∧
    (∀ (items : List (Alg_event × Bool)) (slow fast later : List Int) (last_time : ℚ)
      (trace : List Action),
      List.Forall₂ (fun (p : Alg_event × Bool) (ms : Int) =>
        (if p.2 = true then p.1.time else p.1.get_end_time) ≤ (ms : ℚ) * (1 / 1000))
        items fast →
      ∃ w1, seq2midi items ⟨slow ++ fast ++ later, last_time, trace⟩ = some w1) := by
  refine ⟨item_messages_length, ?_, ?_, seq2midi_sent, ?_, ?_⟩
  · intro e note_on h
    unfold item_messages
    cases note_on <;> simp [h]
  · intro e note_on h1 h2
    have he : item_messages e note_on = send_midi_update e := by
      unfold item_messages
      simp [h1, h2]
    rw [he]
    exact ⟨rfl, (send_midi_update_length e).2⟩
  · intro pre post e note_on w w1 h
    unfold seq2midi at h
    rw [seq2midi_loop_append] at h
    obtain ⟨wa, ha, hb⟩ := Option.bind_eq_some.mp h
    simp only [seq2midi_loop] at hb
    cases hw : wait_until (if note_on = true then e.time else e.get_end_time) wa with
    | none => simp [hw] at hb
    | some wb =>
      simp only [hw] at hb
      obtain ⟨consumed, ms, c1, c2⟩ := wait_until_last_reading _ _ _ hw
      obtain ⟨later, t1, _⟩ := seq2midi_loop_trace _ _ _ hb
      exact ⟨wa, wb, consumed, ms, later, ha, hw, c1, c2, by simpa [write_all] using t1⟩
  · intro items slow fast later last_time trace h
    obtain ⟨w1, _, h1, _⟩ := seq2midi_loop_returns items later fast slow last_time
      (trace ++ [Action.pt_start]) h
    exact ⟨w1, h1⟩

/-- C17 on a bend update, an update of the unknown attribute `foo` and a note,
with the clock 0, 0, 1000, 2000: three messages, for the bend, the note-start
and the note-end, in that order. -/
theorem one_message_per_item_witness :
    ∃ w1, seq2midi [(bend_zero, true), (foo_update, true), (note_key60, true),
        (note_key60, false)] ⟨[] ++ [0, 0, 1000, 2000] ++ [], 0, []⟩ = some w1 ∧
      sent w1.trace = [⟨0, Pm_Message 0xE0 63 63⟩, ⟨1000, Pm_Message 0x91 60 100⟩,
        ⟨2000, Pm_Message 0x91 60 0⟩] := by
  obtain ⟨w1, hw⟩ := one_message_per_item.2.2.2.2.2
    [(bend_zero, true), (foo_update, true), (note_key60, true), (note_key60, false)]
    [] [0, 0, 1000, 2000] [] 0 []
    (List.Forall₂.cons (by decide!) (List.Forall₂.cons (by decide!)
      (List.Forall₂.cons (by decide!) (List.Forall₂.cons (by decide!) List.Forall₂.nil))))
  refine ⟨w1, hw, ?_⟩
  rw [one_message_per_item.2.2.2.1 _ _ _ hw]
  decide!

/-! ## The playback driver -/

theorem seq2midi_trace (items : List (Alg_event × Bool)) (w w1 : World)
    (h : seq2midi items w = some w1) :
    ∃ played, w1.trace = w.trace ++ [Action.pt_start] ++ played ∧
      (∀ a ∈ played, a = Action.pt_sleep 1 ∨ a = Action.print_dot ∨
        ∃ e, a = Action.write_short e) ∧
      sent played = items.flatMap (fun p => item_messages p.1 p.2) := by
  have hs := seq2midi_sent items w w1 h
  unfold seq2midi at h
  obtain ⟨played, h1, h2⟩ := seq2midi_loop_trace _ _ _ h
  refine ⟨played, h1, h2, ?_⟩
  rw [h1, sent_append, sent_append] at hs
  have hp : sent [Action.pt_start] = [] := rfl
  rw [hp, List.append_nil] at hs
  exact List.append_cancel_left hs

/-- C13: when `Pm_OpenOutput` does not return `pmNoError`, `seq_play` only
initialises, tries to open and terminates: the clock is not read (no wait), no
message is written, the stream is not closed, and the items of the iterator play
no part. When it returns `pmNoError`, the trace after the opening is that of
`seq2midi` (sleeps, progress indicators and the messages of the items in order),
then that of a wait (sleeps and progress indicators only) until one second past
the reading of the clock taken after the last item, then one `Pm_Close` and
`Pm_Terminate`; and the run returns when `seq2midi` returns and the clock then
holds a reading and, after it, one at least a second later. -/
theorem seq_play_trace (items : List (Alg_event × Bool)) (w : World) :
    (∀ r : Int, r ≠ pmNoError →
      seq_play r items w = some ⟨w.clock, w.last_time,
        w.trace ++ [Action.pm_initialize, Action.pm_open_output, Action.pm_terminate]⟩ ∧
      seq_play r items w = seq_play r [] w) ∧
    (∀ w4 : World, seq_play pmNoError items w = some w4 →
      ∃ (w1 w3 : World) (ms : Int) (rest consumed : List Int) (reached : Int)
        (played waited : List Action),
        seq2midi items ⟨w.clock, w.last_time,
          w.trace ++ [Action.pm_initialize, Action.pm_open_output]⟩ = some w1 ∧
        w1.clock = ms :: rest ∧
        wait_until ((ms : ℚ) * (1 / 1000) + 1) ⟨rest, w1.last_time, w1.trace⟩ = some w3 ∧
        rest = consumed ++ [reached] ++ w4.clock ∧
        (ms : ℚ) * (1 / 1000) + 1 ≤ (reached : ℚ) * (1 / 1000) ∧
        w4.trace = w.trace ++ [Action.pm_initialize, Action.pm_open_output, Action.pt_start]
          ++ played ++ waited ++ [Action.pm_close, Action.pm_terminate] ∧
        (∀ a ∈ played, a = Action.pt_sleep 1 ∨ a = Action.print_dot ∨
          ∃ e, a = Action.write_short e) ∧
        sent played = items.flatMap (fun p => item_messages p.1 p.2) ∧
        (∀ a ∈ waited, a = Action.pt_sleep 1 ∨ a = Action.print_dot)) ∧
    (∀ (w1 : World) (ms : Int) (rest : List Int),
      seq2midi items ⟨w.clock, w.last_time,
        w.trace ++ [Action.pm_initialize, Action.pm_open_output]⟩ = some w1 →
      w1.clock = ms :: rest →
      (∃ reached ∈ rest, (ms : ℚ) * (1 / 1000) + 1 ≤ (reached : ℚ) * (1 / 1000)) →
      ∃ w4, seq_play pmNoError items w = some w4) := by
  refine ⟨?_, ?_, ?_⟩
  · intro r hr
    simp only [seq_play, if_neg hr, List.append_assoc, List.cons_append, List.nil_append,
      and_self]
  · intro w4 h
    simp only [seq_play, if_true] at h
    cases h1 : seq2midi items ⟨w.clock, w.last_time,
        w.trace ++ [Action.pm_initialize, Action.pm_open_output]⟩ with
    | none =>
      rw [h1] at h
      cases h
    | some w1 =>
      simp only [h1] at h
      cases hc : w1.clock with
      | nil =>
        simp only [time_elapsed, hc] at h
        cases h
      | cons ms rest =>
        simp only [time_elapsed, hc] at h
        cases h3 : wait_until ((ms : ℚ) * (1 / 1000) + 1)
            ⟨rest, w1.last_time, w1.trace⟩ with
        | none =>
          rw [h3] at h
          cases h
        | some w3 =>
          simp only [h3, Option.some.injEq] at h
          obtain ⟨played, p1, p2, p3⟩ := seq2midi_trace _ _ _ h1
          obtain ⟨waited, q1, q2⟩ := wait_until_trace _ _ _ h3
          obtain ⟨consumed, reached, c1, c2⟩ := wait_until_last_reading _ _ _ h3
          subst h
          refine ⟨w1, w3, ms, rest, consumed, reached, played, waited, rfl, hc, h3, c1, c2,
            ?_, p2, p3, q2⟩
          simp only [q1, p1]
          simp
  · intro w1 ms rest h1 hc hr
    obtain ⟨w3, _, h3, _⟩ := wait_until_returns ((ms : ℚ) * (1 / 1000) + 1) rest []
      w1.last_time w1.trace hr
    simp only [List.append_nil] at h3
    refine ⟨⟨w3.clock, w3.last_time, w3.trace ++ [Action.pm_close, Action.pm_terminate]⟩, ?_⟩
    simp only [seq_play, if_true, h1, time_elapsed, hc, h3]

/-- C13 on the note from second 1 to second 2: with the error code -10000 the
trace is `Pm_Initialize`, `Pm_OpenOutput`, `Pm_Terminate` and the clock is left
as it was; with `pmNoError` and the clock 1000, 2000, 2000, 2500, 3000 the messages of
the note are written, the wait until second 3 sleeps once, and the stream is
closed once. -/
theorem seq_play_trace_witness :
    seq_play (-10000) [(note_key60, true), (note_key60, false)] ⟨[1000, 2000], 0, []⟩
      = some ⟨[1000, 2000], 0,
        [] ++ [Action.pm_initialize, Action.pm_open_output, Action.pm_terminate]⟩ ∧
    seq_play pmNoError [(note_key60, true), (note_key60, false)]
        ⟨[1000, 2000, 2000, 2500, 3000], 0, []⟩
      = some ⟨[], 3,
        [Action.pm_initialize, Action.pm_open_output, Action.pt_start,
          Action.write_short ⟨1000, Pm_Message 0x91 60 100⟩,
          Action.write_short ⟨2000, Pm_Message 0x91 60 0⟩,
          Action.pt_sleep 1, Action.print_dot, Action.pm_close, Action.pm_terminate]⟩ :=
  ⟨((seq_play_trace [(note_key60, true), (note_key60, false)] ⟨[1000, 2000], 0, []⟩).1
      (-10000) (by decide)).1,
    by decide!⟩

/-! ## Rounding to a double -/

theorem round_half_even_bounds (y : ℚ) :
    ⌊y⌋ ≤ round_half_even y ∧ round_half_even y ≤ ⌊y⌋ + 1 := by
  unfold round_half_even
  split_ifs <;> omega

theorem round_half_even_ge_int (k : Int) (y : ℚ) (h : (k : ℚ) ≤ y) :
    k ≤ round_half_even y :=
  le_trans (Int.le_floor.mpr h) (round_half_even_bounds y).1

theorem round_half_even_nonpos (y : ℚ) (h : y ≤ 0) : round_half_even y ≤ 0 := by
  have hf : ⌊y⌋ ≤ 0 := Int.floor_nonpos h
  unfold round_half_even
  split_ifs with h1 h2 h3
  · exact hf
  · have hlt : ((⌊y⌋ : Int) : ℚ) < 0 := by linarith
    have : ⌊y⌋ < 0 := by exact_mod_cast hlt
    omega
  · exact hf
  · have hlt : ((⌊y⌋ : Int) : ℚ) < 0 := by
      have : y - ⌊y⌋ = 1 / 2 := le_antisymm (not_lt.mp h2) (not_lt.mp h1)
      linarith
    have : ⌊y⌋ < 0 := by exact_mod_cast hlt
    omega

theorem double_ulp_pos (x : ℚ) : 0 < double_ulp x := by
  unfold double_ulp
  positivity

theorem round_to_double_nonneg (x : ℚ) (h : 0 ≤ x) : 0 ≤ round_to_double x := by
  unfold round_to_double
  have hu := double_ulp_pos x
  have hy : ((0 : Int) : ℚ) ≤ x / double_ulp x := by
    simpa using div_nonneg h hu.le
  have hr : (0 : Int) ≤ round_half_even (x / double_ulp x) := round_half_even_ge_int 0 _ hy
  have hq : (0 : ℚ) ≤ (round_half_even (x / double_ulp x) : ℚ) := by exact_mod_cast hr
  exact mul_nonneg hq hu.le

theorem round_to_double_nonpos (x : ℚ) (h : x ≤ 0) : round_to_double x ≤ 0 := by
  unfold round_to_double
  have hu := double_ulp_pos x
  have hr : round_half_even (x / double_ulp x) ≤ 0 :=
    round_half_even_nonpos _ (div_nonpos_of_nonpos_of_nonneg h hu.le)
  have hq : (round_half_even (x / double_ulp x) : ℚ) ≤ 0 := by exact_mod_cast hr
  exact mul_nonpos_of_nonpos_of_nonneg hq hu.le

theorem round_to_double_ge_of_int (x u : ℚ) (k : Int) (hu : 0 < u) (hk : (k : ℚ) ≤ x / u)
    (h : 127 ≤ (k : ℚ) * u) : 127 ≤ (round_half_even (x / u) : ℚ) * u := by
  have hr : ((k : Int) : ℚ) ≤ (round_half_even (x / u) : ℚ) := by
    exact_mod_cast round_half_even_ge_int k _ hk
  calc (127 : ℚ) ≤ (k : ℚ) * u := h
    _ ≤ (round_half_even (x / u) : ℚ) * u := mul_le_mul_of_nonneg_right hr hu.le

theorem bit_length_zero (fuel : Nat) : bit_length fuel 0 = 0 := by
  cases fuel <;> simp [bit_length]

theorem bit_length_spec : ∀ (fuel n : Nat), 0 < n → n ≤ fuel →
    2 ^ bit_length fuel n ≤ 2 * n ∧ n < 2 ^ bit_length fuel n := by
  intro fuel
  induction fuel with
  | zero =>
    intro n hn hle
    omega
  | succ f ih =>
    intro n hn hle
    simp only [bit_length, if_neg (Nat.ne_of_gt hn)]
    by_cases h2 : n / 2 = 0
    · rw [h2, bit_length_zero]
      have h1 : n = 1 := by omega
      subst h1
      norm_num
    · obtain ⟨a, b⟩ := ih (n / 2) (Nat.pos_of_ne_zero h2) (by omega)
      rw [pow_succ]
      generalize 2 ^ bit_length f (n / 2) = P at a b
      constructor <;> omega

theorem binary_exponent_le (x : ℚ) (hx : 0 < x) : (2 : ℚ) ^ binary_exponent x ≤ x := by
  unfold binary_exponent
  split_ifs with h
  · rwa [abs_of_pos hx] at h
  · have hnum : 0 < x.num := Rat.num_pos.mpr hx
    have hp : 0 < x.num.natAbs := Int.natAbs_pos.mpr hnum.ne'
    have hq : 0 < x.den := x.den_pos
    obtain ⟨a1, _⟩ := bit_length_spec x.num.natAbs x.num.natAbs hp le_rfl
    obtain ⟨_, b2⟩ := bit_length_spec x.den x.den hq le_rfl
    have hcast : ((x.num.natAbs : Nat) : ℚ) = (x.num : ℚ) := by
      rw [Nat.cast_natAbs, abs_of_pos hnum]
    have hxeq : (x.num.natAbs : ℚ) / (x.den : ℚ) = x := by
      rw [hcast]
      exact Rat.num_div_den x
    have ha : (2 : ℚ) ^ bit_length x.num.natAbs x.num.natAbs ≤ 2 * (x.num.natAbs : ℚ) := by
      exact_mod_cast a1
    have hb : (x.den : ℚ) ≤ 2 ^ bit_length x.den x.den := by
      exact_mod_cast b2.le
    have hqq : (0 : ℚ) < (x.den : ℚ) := by exact_mod_cast hq
    have hpp : (0 : ℚ) ≤ (x.num.natAbs : ℚ) := by positivity
    have h2 : (2 : ℚ) ≠ 0 := by norm_num
    rw [zpow_sub₀ h2, zpow_sub₀ h2, zpow_natCast, zpow_natCast, zpow_one]
    have key : (2 : ℚ) ^ bit_length x.num.natAbs x.num.natAbs / 2 ^ bit_length x.den x.den / 2
        ≤ (x.num.natAbs : ℚ) / (x.den : ℚ) := by
      rw [div_div, div_le_div_iff₀ (by positivity) hqq]
      calc (2 : ℚ) ^ bit_length x.num.natAbs x.num.natAbs * (x.den : ℚ)
          ≤ 2 * (x.num.natAbs : ℚ) * 2 ^ bit_length x.den x.den :=
            mul_le_mul ha hb hqq.le (by positivity)
        _ = (x.num.natAbs : ℚ) * (2 ^ bit_length x.den x.den * 2) := by ring
    exact key.trans hxeq.le

theorem binary_exponent_lt (x : ℚ) (hx : 0 < x) : x < (2 : ℚ) ^ (binary_exponent x + 1) := by
  unfold binary_exponent
  split_ifs with h
  · have hnum : 0 < x.num := Rat.num_pos.mpr hx
    have hp : 0 < x.num.natAbs := Int.natAbs_pos.mpr hnum.ne'
    have hq : 0 < x.den := x.den_pos
    obtain ⟨_, a2⟩ := bit_length_spec x.num.natAbs x.num.natAbs hp le_rfl
    obtain ⟨b1, _⟩ := bit_length_spec x.den x.den hq le_rfl
    have hcast : ((x.num.natAbs : Nat) : ℚ) = (x.num : ℚ) := by
      rw [Nat.cast_natAbs, abs_of_pos hnum]
    have hxeq : (x.num.natAbs : ℚ) / (x.den : ℚ) = x := by
      rw [hcast]
      exact Rat.num_div_den x
    have ha : (x.num.natAbs : ℚ) < 2 ^ bit_length x.num.natAbs x.num.natAbs := by
      exact_mod_cast a2
    have hb : (2 : ℚ) ^ bit_length x.den x.den ≤ 2 * (x.den : ℚ) := by
      exact_mod_cast b1
    have hqq : (0 : ℚ) < (x.den : ℚ) := by exact_mod_cast hq
    have h2 : (2 : ℚ) ≠ 0 := by norm_num
    rw [zpow_add₀ h2, zpow_sub₀ h2, zpow_natCast, zpow_natCast, zpow_one]
    have key : (x.num.natAbs : ℚ) / (x.den : ℚ)
        < (2 : ℚ) ^ bit_length x.num.natAbs x.num.natAbs / 2 ^ bit_length x.den x.den * 2 := by
      rw [div_mul_eq_mul_div, div_lt_div_iff₀ hqq (by positivity)]
      calc (x.num.natAbs : ℚ) * 2 ^ bit_length x.den x.den
          ≤ (x.num.natAbs : ℚ) * (2 * (x.den : ℚ)) :=
            mul_le_mul_of_nonneg_left hb (by positivity)
        _ < 2 ^ bit_length x.num.natAbs x.num.natAbs * (2 * (x.den : ℚ)) :=
            mul_lt_mul_of_pos_right ha (by positivity)
        _ = 2 ^ bit_length x.num.natAbs x.num.natAbs * 2 * (x.den : ℚ) := by ring
    exact lt_of_eq_of_lt hxeq.symm key
  · rw [abs_of_pos hx] at h
    have he : (bit_length x.num.natAbs x.num.natAbs : Int) - (bit_length x.den x.den : Int)
        - 1 + 1
        = (bit_length x.num.natAbs x.num.natAbs : Int) - (bit_length x.den x.den : Int) := by
      ring
    rw [he]
    exact not_le.mp h

theorem round_to_double_ge_127 (x : ℚ) (h : 127 ≤ x) : 127 ≤ round_to_double x := by
  have hx : (0 : ℚ) < x := by linarith
  have hle : (2 : ℚ) ^ binary_exponent x ≤ x := binary_exponent_le x hx
  unfold round_to_double double_ulp
  by_cases hc : max (binary_exponent x - 52) (-1074) ≤ 0
  · obtain ⟨n, hn⟩ : ∃ n : ℕ, max (binary_exponent x - 52) (-1074) = -(n : Int) :=
      ⟨(-max (binary_exponent x - 52) (-1074)).toNat, by omega⟩
    rw [hn, zpow_neg, zpow_natCast]
    have hp : (0 : ℚ) < 2 ^ n := by positivity
    apply round_to_double_ge_of_int x _ (127 * 2 ^ n) (by positivity)
    · rw [div_inv_eq_mul]
      push_cast
      exact mul_le_mul_of_nonneg_right h hp.le
    · push_cast
      rw [mul_assoc, mul_inv_cancel₀ hp.ne', mul_one]
  · have hs : max (binary_exponent x - 52) (-1074) = binary_exponent x - 52 := by
      rcases max_choice (binary_exponent x - 52) (-1074) with h1 | h1
      · exact h1
      · rw [h1] at hc
        omega
    obtain ⟨n, hn⟩ : ∃ n : ℕ, binary_exponent x - 52 = (n : Int) :=
      ⟨(binary_exponent x - 52).toNat, by rw [hs] at hc; omega⟩
    have hlog : binary_exponent x = 52 + (n : Int) := by omega
    rw [hs, hn, zpow_natCast]
    have hp : (0 : ℚ) < 2 ^ n := by positivity
    have hp1 : (1 : ℚ) ≤ 2 ^ n := one_le_pow₀ (by norm_num)
    have h52 : (2 : ℚ) ^ (52 : Int) = 4503599627370496 := by norm_num
    have h2 : (2 : ℚ) ≠ 0 := by norm_num
    rw [hlog, zpow_add₀ h2, h52, zpow_natCast] at hle
    apply round_to_double_ge_of_int x _ 4503599627370496 hp
    · rw [le_div_iff₀ hp, Int.cast_ofNat]
      exact hle
    · rw [Int.cast_ofNat]
      calc (127 : ℚ) ≤ 4503599627370496 * 1 := by norm_num
        _ ≤ 4503599627370496 * 2 ^ n := mul_le_mul_of_nonneg_left hp1 (by norm_num)

theorem double_mul_nonneg (a b : ℚ) (ha : 0 ≤ a) (hb : 0 ≤ b) : 0 ≤ double_mul a b :=
  round_to_double_nonneg _ (mul_nonneg ha hb)

/-! ## Channel pressure -/

/-- C14, amended: a pressure update whose identifier is negative makes
`send_midi_update` write exactly one message, of status 0xD0 + (chan mod 16),
whose first data byte is the double product of the value and 127, truncated
toward zero and clamped to [0,127], and whose second data byte is 0, as long as
the truncated product fits an `int`; in that range the first data byte is 127
for a value of at least 1 and 0 for a value of at most 0. -/
theorem channel_pressure (u : Alg_event) (h : u.get_attribute = pressure_attr)
    (hid : u.get_identifier < 0)
    (h1 : -2147483648 ≤ trunc (double_mul u.get_real_value 127))
    (h2 : trunc (double_mul u.get_real_value 127) < 2147483648) :
    ∃ m, send_midi_update u = [m] ∧
      Pm_MessageStatus m.message = 0xD0 + u.chan % 16 ∧
      Pm_MessageData1 m.message = clamp (trunc (double_mul u.get_real_value 127)) 0 127 ∧
      (1 ≤ u.get_real_value → Pm_MessageData1 m.message = 127) ∧
      (u.get_real_value ≤ 0 → Pm_MessageData1 m.message = 0) ∧
      Pm_MessageData2 m.message = 0 := by
  have hd : Pm_MessageData1 (midi_channel_message_2 u.time MIDI_TOUCH u.chan
      (int_of_double (double_mul u.get_real_value 127))).message
      = clamp (trunc (double_mul u.get_real_value 127)) 0 127 := by
    rw [int_of_double_of_mem _ h1 h2]
    exact data1_of_clamped _ _ _
  refine ⟨midi_channel_message_2 u.time MIDI_TOUCH u.chan
    (int_of_double (double_mul u.get_real_value 127)), ?_, ?_, hd, ?_, ?_, ?_⟩
  · unfold send_midi_update
    rw [if_pos h, if_pos hid]
  · simp only [midi_channel_message_2, status_of_message, MIDI_TOUCH]
    omega
  · intro hv
    rw [hd]
    have hx : (127 : ℚ) ≤ double_mul u.get_real_value 127 :=
      round_to_double_ge_127 _ (by linarith)
    have hf : (127 : Int) ≤ ⌊double_mul u.get_real_value 127⌋ := by
      rw [Int.le_floor]
      push_cast
      exact hx
    rw [trunc_of_nonneg _ (by linarith)]
    unfold clamp
    split_ifs <;> omega
  · intro hv
    rw [hd]
    have hx : double_mul u.get_real_value 127 ≤ 0 :=
      round_to_double_nonpos _ (by linarith)
    have ht := trunc_nonpos _ hx
    unfold clamp
    split_ifs <;> omega
  · simp only [midi_channel_message_2, data2_of_message]
    rfl

/-- C14, amended, at the values 0.5 (on channel 2) and the double nearest to
1/127: one message each, with first data bytes 63 and 1 (the exact product of
the second value and 127 is below 1, the double product is 1). -/
theorem channel_pressure_witness :
    (∃ m, send_midi_update pressure_channel_half = [m] ∧
      Pm_MessageStatus m.message = 0xD2 ∧ Pm_MessageData1 m.message = 63 ∧
      Pm_MessageData2 m.message = 0) ∧
    (∃ m, send_midi_update pressure_step = [m] ∧ Pm_MessageData1 m.message = 1) ∧
    pressure_step.get_real_value * 127 < 1 :=
  ⟨match channel_pressure pressure_channel_half rfl (by decide) (by decide!) (by decide!) with
    | ⟨m, a, b, c, _, _, d⟩ => ⟨m, a, b.trans (by decide), c.trans (by decide!), d⟩,
   match channel_pressure pressure_step rfl (by decide) (by decide!) (by decide!) with
    | ⟨m, a, _, c, _, _, _⟩ => ⟨m, a, c.trans (by decide!)⟩,
   by decide!⟩

/-- C14 as stated fails at the value 16909321, which is at least 1: the product
with 127 is 2147483767, which does not fit an `int`, and the first data byte of
the Channel Pressure message is 0, not 127. -/
theorem channel_pressure_wraps :
    (1 : ℚ) ≤ pressure_huge.get_real_value ∧ pressure_huge.get_identifier < 0 ∧
    double_mul pressure_huge.get_real_value 127 = 2147483767 ∧
    clamp (trunc (pressure_huge.get_real_value * 127)) 0 127 = 127 ∧
    (send_midi_update pressure_huge).map (fun m => Pm_MessageStatus m.message) = [0xD0] ∧
    (send_midi_update pressure_huge).map (fun m => Pm_MessageData1 m.message) = [0] := by
  decide!

/-! ## Notes -/

theorem item_messages_note (e : Alg_event) (h : e.is_note = true) :
    item_messages e true
      = [midi_note_on e.time e.chan e.get_identifier (int_of_double e.get_loud)] ∧
    item_messages e false = [midi_note_on e.get_end_time e.chan e.get_identifier 0] := by
  unfold item_messages
  simp [h]

theorem seq2midi_sent_around_note (e : Alg_event) (m_on m_off : PmEvent)
    (hon : item_messages e true = [m_on]) (hoff : item_messages e false = [m_off])
    (pre mid post : List (Alg_event × Bool)) (w w1 : World)
    (hw : seq2midi (pre ++ (e, true) :: (mid ++ (e, false) :: post)) w = some w1) :
    sent w1.trace = sent w.trace ++
      (pre.flatMap (fun p => item_messages p.1 p.2) ++
        m_on :: (mid.flatMap (fun p => item_messages p.1 p.2) ++
          m_off :: post.flatMap (fun p => item_messages p.1 p.2))) := by
  rw [seq2midi_sent _ _ _ hw]
  simp [hon, hoff]

theorem seq2midi_returns (items : List (Alg_event × Bool)) (slow fast later : List Int)
    (last_time : ℚ) (trace : List Action)
    (h : List.Forall₂ (fun (p : Alg_event × Bool) (ms : Int) =>
      (if p.2 = true then p.1.time else p.1.get_end_time) ≤ (ms : ℚ) * (1 / 1000))
      items fast) :
    ∃ w1, seq2midi items ⟨slow ++ fast ++ later, last_time, trace⟩ = some w1 := by
  obtain ⟨w1, _, h1, _⟩ := seq2midi_loop_returns items later fast slow last_time
    (trace ++ [Action.pt_start]) h
  exact ⟨w1, h1⟩

/-- C5, amended: for a note whose truncated loudness fits an `int`, wherever the
iterator yields it flagged note-start and later flagged note-end among its
items, `seq2midi` writes for it exactly two messages, at those two places of the
output and in that order: the first has status 0x90 + (chan mod 16), the key
clamped to [0,127] and the truncated loudness clamped to [0,127]; the second has
the same status and key and velocity 0; the high nibble of both status bytes is
9, never 8; the messages of the items before, between and after are written
around them. The run returns on every clock that offers each item in turn a
reading that reaches its effective time. -/
theorem note_on_then_off (e : Alg_event) (h : e.is_note = true)
    (h1 : -2147483648 ≤ trunc e.get_loud) (h2 : trunc e.get_loud < 2147483648) :
    ∃ m_on m_off : PmEvent,
      item_messages e true = [m_on] ∧ item_messages e false = [m_off] ∧
      (∀ (pre mid post : List (Alg_event × Bool)) (w w1 : World),
        seq2midi (pre ++ (e, true) :: (mid ++ (e, false) :: post)) w = some w1 →
        sent w1.trace = sent w.trace ++
          (pre.flatMap (fun p => item_messages p.1 p.2) ++
            m_on :: (mid.flatMap (fun p => item_messages p.1 p.2) ++
              m_off :: post.flatMap (fun p => item_messages p.1 p.2)))) ∧
      (∀ (pre mid post : List (Alg_event × Bool)) (slow fast later : List Int)
        (last_time : ℚ) (trace : List Action),
        List.Forall₂ (fun (p : Alg_event × Bool) (ms : Int) =>
          (if p.2 = true then p.1.time else p.1.get_end_time) ≤ (ms : ℚ) * (1 / 1000))
          (pre ++ (e, true) :: (mid ++ (e, false) :: post)) fast →
        ∃ w1, seq2midi (pre ++ (e, true) :: (mid ++ (e, false) :: post))
          ⟨slow ++ fast ++ later, last_time, trace⟩ = some w1) ∧
      Pm_MessageStatus m_on.message = 0x90 + e.chan % 16 ∧
      Pm_MessageData1 m_on.message = clamp e.get_identifier 0 127 ∧
      Pm_MessageData2 m_on.message = clamp (trunc e.get_loud) 0 127 ∧
      Pm_MessageStatus m_off.message = 0x90 + e.chan % 16 ∧
      Pm_MessageData1 m_off.message = clamp e.get_identifier 0 127 ∧
      Pm_MessageData2 m_off.message = 0 ∧
      Pm_MessageStatus m_on.message / 16 = 9 ∧ Pm_MessageStatus m_off.message / 16 = 9 := by
  obtain ⟨hon, hoff⟩ := item_messages_note e h
  refine ⟨midi_note_on e.time e.chan e.get_identifier (int_of_double e.get_loud),
    midi_note_on e.get_end_time e.chan e.get_identifier 0, hon, hoff, ?_, ?_, ?_⟩
  · intro pre mid post w w1 hw
    exact seq2midi_sent_around_note e _ _ hon hoff pre mid post w w1 hw
  · intro pre mid post slow fast later last_time trace hf
    exact seq2midi_returns _ slow fast later last_time trace hf
  · rw [int_of_double_of_mem _ h1 h2]
    refine ⟨?_, data1_of_clamped _ _ _, data2_of_clamped _ _ _, ?_,
      data1_of_clamped _ _ _, ?_, ?_, ?_⟩
    · simp only [midi_note_on, status_of_message]
      omega
    · simp only [midi_note_on, status_of_message]
      omega
    · simp only [midi_note_on, data2_of_message]
      rfl
    · simp only [midi_note_on, status_of_message]
      omega
    · simp only [midi_note_on, status_of_message]
      omega

/-- C5, amended, at a note of key 60 and loudness 100.7 on channel 17 that lasts
from second 1 to second 2, yielded after a bend update, around an update of the
unknown attribute `foo` and before a program update, on the clock 0, 1000, 1000,
2000, 2000: the run writes the bend message, the two messages of the note (status
0x91, key 60, velocities 100 and 0) and the program message. -/
theorem note_on_then_off_witness :
    ∃ (m_on m_off : PmEvent) (w1 : World),
      seq2midi ([(bend_zero, true)] ++ (note_key60, true) ::
        ([(foo_update, true)] ++ (note_key60, false) :: [(program_five, true)]))
        ⟨[] ++ [0, 1000, 1000, 2000, 2000] ++ [], 0, []⟩ = some w1 ∧
      sent w1.trace = [] ++ ([⟨0, Pm_Message 0xE0 63 63⟩] ++ m_on :: ([] ++
        m_off :: [⟨2000, Pm_Message 0xC3 5 0⟩])) ∧
      Pm_MessageStatus m_on.message = 0x91 ∧
      Pm_MessageData1 m_on.message = 60 ∧ Pm_MessageData2 m_on.message = 100 ∧
      Pm_MessageStatus m_off.message = 0x91 ∧
      Pm_MessageData1 m_off.message = 60 ∧ Pm_MessageData2 m_off.message = 0 := by
  obtain ⟨m_on, m_off, _, _, hs, hr, a2, a3, a4, b2, b3, b4, _, _⟩ :=
    note_on_then_off note_key60 rfl (by decide!) (by decide!)
  obtain ⟨w1, hw⟩ := hr [(bend_zero, true)] [(foo_update, true)] [(program_five, true)]
    [] [0, 1000, 1000, 2000, 2000] [] 0 []
    (List.Forall₂.cons (by decide!) (List.Forall₂.cons (by decide!)
      (List.Forall₂.cons (by decide!) (List.Forall₂.cons (by decide!)
        (List.Forall₂.cons (by decide!) List.Forall₂.nil)))))
  have hpre : [(bend_zero, true)].flatMap (fun p => item_messages p.1 p.2)
      = [⟨0, Pm_Message 0xE0 63 63⟩] := by decide!
  have hmid : [(foo_update, true)].flatMap (fun p => item_messages p.1 p.2) = [] := by
    decide!
  have hpost : [(program_five, true)].flatMap (fun p => item_messages p.1 p.2)
      = [⟨2000, Pm_Message 0xC3 5 0⟩] := by decide!
  have hsent := hs _ _ _ _ _ hw
  rw [hpre, hmid, hpost] at hsent
  exact ⟨m_on, m_off, w1, hw, hsent, a2.trans (by decide!), a3.trans (by decide!),
    a4.trans (by decide!), b2.trans (by decide!), b3.trans (by decide!), b4⟩

/-- C5 as stated fails at a note of loudness 3000000000: the truncated loudness
does not fit an `int`, and the note-start message carries velocity 0 where the
clamped truncation is 127. -/
theorem note_velocity_wraps :
    note_loud_3e9.is_note = true ∧
    clamp (trunc note_loud_3e9.get_loud) 0 127 = 127 ∧
    (seq2midi [(note_loud_3e9, true), (note_loud_3e9, false)] ⟨[1000, 2000], 0, []⟩).map
      (fun w1 => (sent w1.trace).map (fun m => Pm_MessageStatus m.message)) = some [0x90, 0x90] ∧
    (seq2midi [(note_loud_3e9, true), (note_loud_3e9, false)] ⟨[1000, 2000], 0, []⟩).map
      (fun w1 => (sent w1.trace).map (fun m => Pm_MessageData2 m.message)) = some [0, 0] := by
  decide!

/-! ## Timestamps of a run -/

/-- C12, amended: for a note with start time t0 ≥ 0 and end time t1 > t0, wherever
the iterator yields it flagged note-start and later flagged note-end among its
items, the Note-On message is written with timestamp floor(t0 * 1000) and the
velocity-0 Note-On message with timestamp floor(t1 * 1000), the products being
the double products (below 2^64): the milliseconds are truncated, not rounded to
the nearest integer. The run returns on every clock that offers each item in
turn a reading that reaches its effective time. -/
theorem note_timestamps_floor (e : Alg_event) (h : e.is_note = true)
    (h0 : 0 ≤ e.time) (h01 : e.time < e.get_end_time)
    (hr0 : double_mul e.time 1000 < 18446744073709551616)
    (hr1 : double_mul e.get_end_time 1000 < 18446744073709551616) :
    ∃ m_on m_off : PmEvent,
      item_messages e true = [m_on] ∧ item_messages e false = [m_off] ∧
      (∀ (pre mid post : List (Alg_event × Bool)) (w w1 : World),
        seq2midi (pre ++ (e, true) :: (mid ++ (e, false) :: post)) w = some w1 →
        sent w1.trace = sent w.trace ++
          (pre.flatMap (fun p => item_messages p.1 p.2) ++
            m_on :: (mid.flatMap (fun p => item_messages p.1 p.2) ++
              m_off :: post.flatMap (fun p => item_messages p.1 p.2)))) ∧
      (∀ (pre mid post : List (Alg_event × Bool)) (slow fast later : List Int)
        (last_time : ℚ) (trace : List Action),
        List.Forall₂ (fun (p : Alg_event × Bool) (ms : Int) =>
          (if p.2 = true then p.1.time else p.1.get_end_time) ≤ (ms : ℚ) * (1 / 1000))
          (pre ++ (e, true) :: (mid ++ (e, false) :: post)) fast →
        ∃ w1, seq2midi (pre ++ (e, true) :: (mid ++ (e, false) :: post))
          ⟨slow ++ fast ++ later, last_time, trace⟩ = some w1) ∧
      m_on.timestamp = ⌊double_mul e.time 1000⌋ ∧
      m_off.timestamp = ⌊double_mul e.get_end_time 1000⌋ ∧
      Pm_MessageData2 m_off.message = 0 := by
  obtain ⟨hon, hoff⟩ := item_messages_note e h
  refine ⟨midi_note_on e.time e.chan e.get_identifier (int_of_double e.get_loud),
    midi_note_on e.get_end_time e.chan e.get_identifier 0, hon, hoff, ?_, ?_, ?_, ?_, ?_⟩
  · intro pre mid post w w1 hw
    exact seq2midi_sent_around_note e _ _ hon hoff pre mid post w w1 hw
  · intro pre mid post slow fast later last_time trace hf
    exact seq2midi_returns _ slow fast later last_time trace hf
  · exact ulong_of_double_of_nonneg _ (double_mul_nonneg _ _ h0 (by norm_num)) hr0
  · exact ulong_of_double_of_nonneg _
      (double_mul_nonneg _ _ (by linarith) (by norm_num)) hr1
  · simp only [midi_note_on, data2_of_message]
    rfl

/-- C12, amended, on the note from second 1 + 1/1024 to second 2 + 1/1024 and
the clock 1001, 2001: the timestamps are 1000 and 2000. -/
theorem note_timestamps_floor_witness :
    ∃ (w1 : World) (m_on m_off : PmEvent),
      seq2midi ([] ++ (note_off_grid, true) :: ([] ++ (note_off_grid, false) :: []))
        ⟨[] ++ [1001, 2001] ++ [], 0, []⟩ = some w1 ∧
      sent w1.trace = [] ++ ([] ++ m_on :: ([] ++ m_off :: [])) ∧
      m_on.timestamp = 1000 ∧ m_off.timestamp = 2000 := by
  obtain ⟨m_on, m_off, _, _, hs, hr, a, b, _⟩ := note_timestamps_floor note_off_grid rfl
    (by decide!) (by decide!) (by decide!) (by decide!)
  obtain ⟨w1, hw⟩ := hr [] [] [] [] [1001, 2001] [] 0 []
    (List.Forall₂.cons (by decide!) (List.Forall₂.cons (by decide!) List.Forall₂.nil))
  exact ⟨w1, m_on, m_off, hw, hs _ _ _ _ _ hw, a.trans (by decide!), b.trans (by decide!)⟩

end Seq2midi
